import Mathlib

/-!
Verification of the simple-screenshots extension against its specification.

The development shallowly embeds the relevant source files:

* `src/lib.js` — the URL gate (`isRestrictedUrl`), the page measurement and
  DOM normalisation function (`measurePageDimensions`) and its inverse
  (`restoreExpandedContainers`).
* `src/unnamed/part_001` (the current background script) — the full-page
  capture plan (width clamping, device-pixel-ratio strategy, warnings), the
  capture-generation concurrency tracker, and the clipboard delivery scripts.

Machine numbers that the JavaScript code manipulates are embedded as `Int`
(integer layout quantities) and `Rat` (`devicePixelRatio` and JSON-decoded
measurements, which may be fractional); JavaScript doubles behave exactly
like rationals on every value and operation appearing in the modelled code
(comparisons, `Math.max`/`Math.min`, one multiplication), none of which can
round at the magnitudes involved.
-/

namespace SimpleScreenshots

/-! ## URL gate (src/lib.js lines 5-17) -/

/-- The fixed list of restricted address prefixes, src/lib.js lines 5-13. -/
def RESTRICTED_URL_PREFIXES : List String :=
  [ "chrome://"
  , "chrome-extension://"
  , "edge://"
  , "about:"
  , "chrome-search://"
  , "https://chrome.google.com/webstore"
  , "https://chromewebstore.google.com"
  ]

/-- JavaScript `s.startsWith(p)`, embedded over the character lists so that
it evaluates by kernel reduction. -/
def strStartsWith (s p : String) : Bool := p.data.isPrefixOf s.data

/-- src/lib.js lines 15-17.  `none` stands for a missing (`null`/`undefined`)
address; the JavaScript test `!url` is true exactly for a missing or empty
string input. -/
def isRestrictedUrl : Option String → Bool
  | none => true
  | some url => url == "" || RESTRICTED_URL_PREFIXES.any (fun p => strStartsWith url p)

/-! ## Full-page capture plan (src/unnamed/part_001 lines 336-340, 425-547)

`captureFullPage` decodes the measured dimensions, reads the native
device-pixel-ratio, floors the height at 1, clamps the width, chooses the
device-scale-factor, computes the warning banner, and issues
`Emulation.setDeviceMetricsOverride` and `Page.captureScreenshot` with the
resulting values.  All of that numeric logic is a pure function of its
inputs, embedded below. -/

/-- src/unnamed/part_001 line 337. -/
def MAX_CAPTURE_WIDTH : Int := 10000

/-- src/unnamed/part_001 line 340. -/
def GPU_TEXTURE_LIMIT : Rat := 16384

/-- The two warning banners of src/unnamed/part_001 lines 517-525. -/
inductive CaptureWarning
  /-- "Page is extremely tall — the screenshot may contain repeating/tiled
  sections near the bottom." -/
  | tiling
  /-- "Captured at reduced resolution (page too tall for native DPR)." -/
  | reducedResolution
  deriving DecidableEq, Repr

/-- Inputs of the numeric part of `captureFullPage`. -/
structure FullPageInputs where
  /-- `Math.ceil(metrics.cssLayoutViewport.clientWidth)`, line 388. -/
  viewportWidth : Int
  /-- `parsedDims.width` — decoded but never used by `captureFullPage`. -/
  measuredWidth : Rat
  /-- `parsedDims.height`, already checked finite (line 426). -/
  measuredHeight : Rat
  /-- whether `.__screenshot-expanded__` elements were found (line 437). -/
  hasExpandedContainers : Bool
  /-- `dprResult?.value`; `none` stands for a missing / non-finite value. -/
  rawDPR : Option Rat
  deriving Repr

/-- Outputs: the parameters of `Emulation.setDeviceMetricsOverride`
(lines 527-536), the clip rect of `Page.captureScreenshot` (line 545), and
the warning attached to the result (line 549). -/
structure FullPagePlan where
  overrideWidth : Int
  overrideHeight : Rat
  /-- `deviceScaleFactor`; `0` means "use the browser's native ratio". -/
  overrideDeviceScaleFactor : Rat
  clipWidth : Int
  clipHeight : Rat
  warning : Option CaptureWarning
  deriving DecidableEq, Repr

/-- The numeric logic of `captureFullPage`, src/unnamed/part_001
lines 446-547, as a pure function. -/
def captureFullPagePlan (p : FullPageInputs) : FullPagePlan :=
  -- lines 446-449: sanitise devicePixelRatio
  let nativeDPR : Rat :=
    match p.rawDPR with
    | some v => if 0 < v then v else 1
    | none => 1
  -- line 452: `height = Math.max(height, 1)`
  let height : Rat := max p.measuredHeight 1
  -- line 453: `captureWidth = Math.min(viewportWidth, MAX_CAPTURE_WIDTH)`
  let captureWidth : Int := min p.viewportWidth MAX_CAPTURE_WIDTH
  -- lines 512-515: DPR strategy
  let physicalHeightAtNative : Rat := height * nativeDPR
  let needsDPRFallback : Bool :=
    p.hasExpandedContainers || decide (GPU_TEXTURE_LIMIT < physicalHeightAtNative)
  let dpr : Rat := if needsDPRFallback then 1 else 0
  -- lines 517-525: warning selection
  let warning : Option CaptureWarning :=
    if GPU_TEXTURE_LIMIT < height then some CaptureWarning.tiling
    else if needsDPRFallback && !p.hasExpandedContainers then
      some CaptureWarning.reducedResolution
    else none
  { overrideWidth := captureWidth
  , overrideHeight := height
  , overrideDeviceScaleFactor := dpr
  , clipWidth := captureWidth
  , clipHeight := height
  , warning := warning }

/-! ## Capture entry gate (src/unnamed/part_001 lines 207-248)

`captureScreenshot` checks `!tab?.url || isRestrictedUrl(tab.url)` before
doing anything else; on a restricted target it shows a failure badge and
returns without attaching the debugger or calling `tabs.captureVisibleTab`.
The list below records the host calls issued from entry up to the start of
the capture work of the chosen path. -/

/-- Externally visible host calls at the entry of `captureScreenshot`. -/
inductive HostCall
  | badge (text : String)
  | clearOverlays
  | preFlash
  | debuggerAttach
  | captureVisibleTab
  | executeScript
  deriving DecidableEq, Repr

/-- Host calls performed by `captureScreenshot` (src/unnamed/part_001
lines 207-248) from entry up to the first capture call of the chosen path.
The guard `!tab?.url || isRestrictedUrl(tab.url)` is exactly
`isRestrictedUrl url` here, since `isRestrictedUrl` already maps a missing
or empty address to `true`. -/
def captureScreenshotEntryCalls (url : Option String) (fullPage : Bool) :
    List HostCall :=
  if isRestrictedUrl url then [HostCall.badge "✗"]
  else
    HostCall.clearOverlays :: HostCall.badge "..." ::
      (if fullPage then [HostCall.preFlash, HostCall.debuggerAttach]
       else [HostCall.captureVisibleTab])

/-- C8: the URL gate classifies an empty/missing address or one starting
with a restricted prefix as not capturable, classifies every nonempty
http/https address matching no restricted prefix as capturable, and a
capture attempt on a non-capturable target produces only a failure badge —
no remote-debug attach and no tab-capture call. -/
theorem url_gate_c8 :
    (isRestrictedUrl none = true ∧ isRestrictedUrl (some "") = true) ∧
    (∀ u pre, pre ∈ RESTRICTED_URL_PREFIXES → strStartsWith u pre = true →
      isRestrictedUrl (some u) = true) ∧
    (∀ u, u ≠ "" → (strStartsWith u "http://" = true ∨ strStartsWith u "https://" = true) →
      (∀ pre ∈ RESTRICTED_URL_PREFIXES, strStartsWith u pre = false) →
      isRestrictedUrl (some u) = false) ∧
    (∀ url fp, isRestrictedUrl url = true →
      captureScreenshotEntryCalls url fp = [HostCall.badge "✗"] ∧
      HostCall.debuggerAttach ∉ captureScreenshotEntryCalls url fp ∧
      HostCall.captureVisibleTab ∉ captureScreenshotEntryCalls url fp) := by
  refine ⟨⟨rfl, rfl⟩, ?_, ?_, ?_⟩
  · intro u pre hmem hpre
    simp only [isRestrictedUrl, Bool.or_eq_true, List.any_eq_true]
    exact Or.inr ⟨pre, hmem, hpre⟩
  · intro u hne _ hnone
    simp only [isRestrictedUrl, Bool.or_eq_false_iff, beq_eq_false_iff_ne, ne_eq,
      List.any_eq_false]
    exact ⟨hne, fun p hp => by simp [hnone p hp]⟩
  · intro url fp hres
    simp [captureScreenshotEntryCalls, hres]

/-- Witness for `url_gate_c8`: evaluated at concrete addresses. -/
theorem url_gate_c8_witness :
    isRestrictedUrl (some "chrome://extensions") = true ∧
    isRestrictedUrl (some "https://example.com/page") = false ∧
    captureScreenshotEntryCalls (some "about:blank") true = [HostCall.badge "✗"] := by
  refine ⟨?_, ?_, ?_⟩
  · exact url_gate_c8.2.1 "chrome://extensions" "chrome://" (by decide) (by decide)
  · exact url_gate_c8.2.2.1 "https://example.com/page" (by decide)
      (Or.inr (by decide)) (by decide)
  · exact (url_gate_c8.2.2.2 (some "about:blank") true (by decide)).1

/-- C4: in the full-page path the device-scale-factor override is 1 exactly
when a container was expanded or the physical height (measured height times
native ratio) exceeds the 16384 texture ceiling, and 0 (browser native)
otherwise; the result carries the tiling warning exactly when the measured
height alone exceeds the ceiling, and the reduced-resolution warning exactly
when the fallback was forced purely by height while the height itself still
fits under the ceiling. -/
theorem dpr_strategy_c4 (p : FullPageInputs) (d : Rat)
    (hd : p.rawDPR = some d) (hdpos : 0 < d) (hh : 1 ≤ p.measuredHeight) :
    ((captureFullPagePlan p).overrideDeviceScaleFactor = 1 ↔
      (p.hasExpandedContainers = true ∨ GPU_TEXTURE_LIMIT < p.measuredHeight * d)) ∧
    ((captureFullPagePlan p).overrideDeviceScaleFactor = 0 ↔
      ¬(p.hasExpandedContainers = true ∨ GPU_TEXTURE_LIMIT < p.measuredHeight * d)) ∧
    ((captureFullPagePlan p).warning = some CaptureWarning.tiling ↔
      GPU_TEXTURE_LIMIT < p.measuredHeight) ∧
    ((captureFullPagePlan p).warning = some CaptureWarning.reducedResolution ↔
      (p.hasExpandedContainers = false ∧ GPU_TEXTURE_LIMIT < p.measuredHeight * d ∧
        p.measuredHeight ≤ GPU_TEXTURE_LIMIT)) := by
  have hmax : max p.measuredHeight 1 = p.measuredHeight := max_eq_left hh
  simp only [captureFullPagePlan, hd, if_pos hdpos, hmax]
  by_cases hexp : p.hasExpandedContainers <;>
    by_cases hphys : GPU_TEXTURE_LIMIT < p.measuredHeight * d <;>
      by_cases htall : GPU_TEXTURE_LIMIT < p.measuredHeight <;>
        simp [hexp, hphys, htall, le_of_not_lt]

/-- Witness for `dpr_strategy_c4`, at the two worked examples of the spec:
ratio 2 with height 9000 gives a forced ratio of 1 and the
reduced-resolution warning; ratio 1 with height 20000 gives the tiling
warning. -/
theorem dpr_strategy_c4_witness :
    ((captureFullPagePlan
        { viewportWidth := 1280, measuredWidth := 800, measuredHeight := 9000
        , hasExpandedContainers := false, rawDPR := some 2 }).overrideDeviceScaleFactor
      = 1) ∧
    ((captureFullPagePlan
        { viewportWidth := 1280, measuredWidth := 800, measuredHeight := 9000
        , hasExpandedContainers := false, rawDPR := some 2 }).warning
      = some CaptureWarning.reducedResolution) ∧
    ((captureFullPagePlan
        { viewportWidth := 1280, measuredWidth := 800, measuredHeight := 20000
        , hasExpandedContainers := false, rawDPR := some 1 }).warning
      = some CaptureWarning.tiling) := by
  have h1 := dpr_strategy_c4
    { viewportWidth := 1280, measuredWidth := 800, measuredHeight := 9000
    , hasExpandedContainers := false, rawDPR := some 2 } 2 rfl (by norm_num) (by norm_num)
  have h2 := dpr_strategy_c4
    { viewportWidth := 1280, measuredWidth := 800, measuredHeight := 20000
    , hasExpandedContainers := false, rawDPR := some 1 } 1 rfl (by norm_num) (by norm_num)
  refine ⟨h1.1.mpr (Or.inr (by norm_num [GPU_TEXTURE_LIMIT])), ?_, ?_⟩
  · exact h1.2.2.2.mpr ⟨rfl, by norm_num [GPU_TEXTURE_LIMIT], by norm_num [GPU_TEXTURE_LIMIT]⟩
  · exact h2.2.2.1.mpr (by norm_num [GPU_TEXTURE_LIMIT])

/-- C7: for every full-page capture the width passed to the viewport
override and to the capture clip is `min(viewport width, MAX_CAPTURE_WIDTH)`
independently of the measured document width, and the height passed is
`max(measured height, 1)` with no fixed upper clamp (every height of at
least 1 passes through unchanged). -/
theorem width_height_clamp_c7 (p : FullPageInputs) (w : Rat) :
    ((captureFullPagePlan p).overrideWidth = min p.viewportWidth MAX_CAPTURE_WIDTH) ∧
    ((captureFullPagePlan p).clipWidth = min p.viewportWidth MAX_CAPTURE_WIDTH) ∧
    (captureFullPagePlan { p with measuredWidth := w } = captureFullPagePlan p) ∧
    ((captureFullPagePlan p).overrideHeight = max p.measuredHeight 1) ∧
    ((captureFullPagePlan p).clipHeight = max p.measuredHeight 1) ∧
    (1 ≤ p.measuredHeight → (captureFullPagePlan p).overrideHeight = p.measuredHeight) := by
  refine ⟨rfl, rfl, rfl, rfl, rfl, fun hh => ?_⟩
  simp only [captureFullPagePlan]
  exact max_eq_left hh

/-- Witness for `width_height_clamp_c7`: a 50000-tall page at viewport
width 15000 is clamped to width 10000 but its height passes through. -/
theorem width_height_clamp_c7_witness :
    ((captureFullPagePlan
        { viewportWidth := 15000, measuredWidth := 0, measuredHeight := 50000
        , hasExpandedContainers := false, rawDPR := some 2 }).overrideWidth = 10000) ∧
    ((captureFullPagePlan
        { viewportWidth := 15000, measuredWidth := 0, measuredHeight := 50000
        , hasExpandedContainers := false, rawDPR := some 2 }).overrideHeight = 50000) := by
  have h := width_height_clamp_c7
    { viewportWidth := 15000, measuredWidth := 0, measuredHeight := 50000
    , hasExpandedContainers := false, rawDPR := some 2 } 0
  exact ⟨h.1.trans (by norm_num [MAX_CAPTURE_WIDTH]), h.2.2.2.2.2 (by norm_num)⟩

/-! ## DOM model for `measurePageDimensions` / `restoreExpandedContainers`
(src/lib.js lines 19-222)

Elements are embedded with

* a *computed-style snapshot* (`computed`): `measurePageDimensions` reads
  `getComputedStyle(el).overflowY / overflow / position` for each element
  only before it mutates anything that could change that element's value of
  the property read, so the computed values the code observes are those of
  the unmutated page and can be carried as immutable per-element inputs;
* the *layout snapshot* (`scrollHeight`, `clientHeight`, `scrollWidth`),
  read during the candidate scan, again before any mutation;
* the mutable inline style (`el.style`), `data-*` attributes (`el.dataset`),
  the two marker classes, and `scrollTop`.

The re-layout the browser performs after the expansion mutations is not
derivable from the snapshot, so the three quantities the code re-reads at
src/lib.js lines 129-138 (document and body scroll extents and the expanded
container's bounding-box bottom plus scroll offset, rounded up) are carried
on the document as oracle inputs (`post*` fields). -/

/-- Inline style declaration block of an element (`el.style`).  `""` is an
unset property; the `Imp` flags record the `!important` priority set by
`style.setProperty(prop, v, "important")`.  A plain assignment
(`el.style.x = v`) and `removeProperty` both clear the flag. -/
structure InlineStyle where
  overflow : String := ""
  overflowImp : Bool := false
  height : String := ""
  heightImp : Bool := false
  maxHeight : String := ""
  maxHeightImp : Bool := false
  bottom : String := ""
  bottomImp : Bool := false
  position : String := ""
  positionImp : Bool := false
  minHeight : String := ""
  minHeightImp : Bool := false
  deriving DecidableEq, Repr

/-- The `data-__screenshot*` attributes used as the reversal record;
`none` is an absent attribute (JavaScript `undefined`). -/
structure Dataset where
  oldOverflow : Option String := none
  oldHeight : Option String := none
  oldMaxHeight : Option String := none
  oldBottom : Option String := none
  oldPosition : Option String := none
  oldMinHeight : Option String := none
  deriving DecidableEq, Repr

/-- Computed-style snapshot of an element.  The base values are the two
overflow axes and the position. -/
structure ComputedStyle where
  overflowX : String
  overflowY : String
  position : String
  deriving DecidableEq, Repr

/-- `getComputedStyle(el).overflow`: CSSOM serialises the shorthand as the
common keyword when both axes agree and as "overflow-x overflow-y"
otherwise. -/
def ComputedStyle.overflow (c : ComputedStyle) : String :=
  if c.overflowX = c.overflowY then c.overflowX
  else c.overflowX ++ " " ++ c.overflowY

/-- A DOM element. -/
structure Elem where
  eid : Nat
  parent : Option Nat
  scrollHeight : Int
  clientHeight : Int
  scrollWidth : Int
  computed : ComputedStyle
  scrollTop : Int := 0
  style : InlineStyle := {}
  ds : Dataset := {}
  /-- the `__screenshot-expanded__` marker class. -/
  expandedMark : Bool := false
  /-- the `__screenshot-repositioned__` marker class. -/
  repositionedMark : Bool := false
  deriving DecidableEq, Repr

/-- A document.  `els` is in document order (`querySelectorAll("*")`),
including the root and body elements. -/
@[ext] structure Doc where
  els : List Elem
  docElId : Nat
  bodyId : Option Nat
  /-- `document.documentElement.scrollHeight` after the expansion. -/
  postDocScrollHeight : Int
  /-- `document.body.scrollHeight` after the expansion. -/
  postBodyScrollHeight : Int
  /-- `Math.ceil(expandedRect.bottom + window.scrollY)` after expansion. -/
  postRectBottomCeil : Int
  /-- `document.documentElement.scrollWidth` after the expansion. -/
  postDocScrollWidth : Int
  /-- `document.body.scrollWidth` after the expansion. -/
  postBodyScrollWidth : Int
  /-- the injected `__screenshot-hide-scrollbars__` style element. -/
  styleElPresent : Bool := false
  deriving DecidableEq, Repr

/-- Look an element up by id. -/
def Doc.find? (d : Doc) (i : Nat) : Option Elem :=
  d.els.find? (fun e => e.eid == i)

/-- `document.documentElement` in the element list. -/
def Doc.docEl (d : Doc) : Option Elem := d.find? d.docElId

/-- `document.body` (`none` models an absent body). -/
def Doc.body (d : Doc) : Option Elem := d.bodyId.bind d.find?

/-- src/lib.js lines 31-34: baseline width. -/
def Doc.baselineWidth (d : Doc) : Int :=
  max ((d.docEl.map Elem.scrollWidth).getD 0)
    (match d.body with | some b => b.scrollWidth | none => 0)

/-- src/lib.js lines 35-38: baseline height. -/
def Doc.baselineHeight (d : Doc) : Int :=
  max ((d.docEl.map (fun e => e.scrollHeight)).getD 0)
    (match d.body with | some b => b.scrollHeight | none => 0)

/-- src/lib.js lines 44-50: the candidate test of the scan — the scrollable
extent exceeds the client extent by more than the 10px slack and the
computed vertical overflow creates a scrollbar. -/
def isScrollCandidate (e : Elem) : Bool :=
  e.clientHeight + 10 < e.scrollHeight &&
    (e.computed.overflowY == "auto" || e.computed.overflowY == "scroll" ||
      e.computed.overflowY == "overlay")

/-- One iteration of the scan loop, src/lib.js lines 43-58; the accumulator
is `(w, h, scrollContainer)`. -/
def scanStep (acc : Int × Int × Option Elem) (e : Elem) : Int × Int × Option Elem :=
  if isScrollCandidate e && decide (acc.2.1 < e.scrollHeight) then
    (max acc.1 e.scrollWidth, e.scrollHeight, some e)
  else acc

/-- The whole scan, starting from the baseline dimensions. -/
def Doc.scan (d : Doc) : Int × Int × Option Elem :=
  d.els.foldl scanStep (d.baselineWidth, d.baselineHeight, none)

/-- The nested scroll container `measurePageDimensions` selects, if any. -/
def Doc.selectedContainer (d : Doc) : Option Elem := d.scan.2.2

/-- src/lib.js lines 81-99: the ancestor chain walked from the container's
parent up to, but not including, the document root.  The fuel keeps the
walk terminating on malformed parent graphs; on an acyclic document it is
never exhausted. -/
def ancestorChainAux (d : Doc) : Nat → Option Nat → List Elem
  | 0, _ => []
  | _, none => []
  | fuel + 1, some i =>
    if i = d.docElId then []
    else
      match d.find? i with
      | none => []
      | some e => e :: ancestorChainAux d fuel e.parent

/-- The ancestor chain of an element. -/
def Doc.ancestorChain (d : Doc) (c : Elem) : List Elem :=
  ancestorChainAux d (d.els.length + 1) c.parent

/-- The atomic mutation statements `measurePageDimensions` executes once a
container has been selected.  Each step targets a single element (by id)
and corresponds to one JavaScript statement of src/lib.js lines 62-166. -/
inductive MStep
  | setScrollTopZero (i : Nat)
  | saveOverflow (i : Nat)
  | saveHeight (i : Nat)
  | saveMaxHeight (i : Nat)
  | saveBottom (i : Nat)
  | savePosition (i : Nat)
  | saveMinHeight (i : Nat)
  | setOverflowVisibleImp (i : Nat)
  | setHeightAutoImp (i : Nat)
  | setMaxHeightNoneImp (i : Nat)
  | setBottomAutoImp (i : Nat)
  | setPositionPlain (i : Nat) (v : String)
  | setMinHeightImp (i : Nat) (v : String)
  | addExpandedMark (i : Nat)
  | addRepositionedMark (i : Nat)
  deriving DecidableEq, Repr

/-- The element a step mutates. -/
def MStep.target : MStep → Nat
  | .setScrollTopZero i => i
  | .saveOverflow i => i
  | .saveHeight i => i
  | .saveMaxHeight i => i
  | .saveBottom i => i
  | .savePosition i => i
  | .saveMinHeight i => i
  | .setOverflowVisibleImp i => i
  | .setHeightAutoImp i => i
  | .setMaxHeightNoneImp i => i
  | .setBottomAutoImp i => i
  | .setPositionPlain i _ => i
  | .setMinHeightImp i _ => i
  | .addExpandedMark i => i
  | .addRepositionedMark i => i

/-- Per-element semantics of a step. -/
def stepElemFn : MStep → Elem → Elem
  | .setScrollTopZero _, e => { e with scrollTop := 0 }
  | .saveOverflow _, e =>
      { e with ds := { e.ds with oldOverflow := some e.style.overflow } }
  | .saveHeight _, e =>
      { e with ds := { e.ds with oldHeight := some e.style.height } }
  | .saveMaxHeight _, e =>
      { e with ds := { e.ds with oldMaxHeight := some e.style.maxHeight } }
  | .saveBottom _, e =>
      { e with ds := { e.ds with oldBottom := some e.style.bottom } }
  | .savePosition _, e =>
      { e with ds := { e.ds with oldPosition := some e.style.position } }
  | .saveMinHeight _, e =>
      { e with ds := { e.ds with oldMinHeight := some e.style.minHeight } }
  | .setOverflowVisibleImp _, e =>
      { e with style := { e.style with overflow := "visible", overflowImp := true } }
  | .setHeightAutoImp _, e =>
      { e with style := { e.style with height := "auto", heightImp := true } }
  | .setMaxHeightNoneImp _, e =>
      { e with style := { e.style with maxHeight := "none", maxHeightImp := true } }
  | .setBottomAutoImp _, e =>
      { e with style := { e.style with bottom := "auto", bottomImp := true } }
  | .setPositionPlain _ v, e =>
      { e with style := { e.style with position := v, positionImp := false } }
  | .setMinHeightImp _ v, e =>
      { e with style := { e.style with minHeight := v, minHeightImp := true } }
  | .addExpandedMark _, e => { e with expandedMark := true }
  | .addRepositionedMark _, e => { e with repositionedMark := true }

/-- Apply a per-element update to every element with the given id. -/
def updateEl (d : Doc) (i : Nat) (f : Elem → Elem) : Doc :=
  { d with els := d.els.map (fun e => if e.eid = i then f e else e) }

/-- Apply one step to the document. -/
def applyStep (d : Doc) (st : MStep) : Doc := updateEl d st.target (stepElemFn st)

/-- Apply a list of steps in order. -/
def applySteps (d : Doc) (L : List MStep) : Doc := L.foldl applyStep d

/-- src/lib.js lines 62-77: scroll to top, save the container's
overflow/height/max-height inline styles, force them unconstrained with
`!important`, mark it expanded. -/
def containerSteps (c : Elem) : List MStep :=
  [ .setScrollTopZero c.eid
  , .saveOverflow c.eid, .saveHeight c.eid, .saveMaxHeight c.eid
  , .setOverflowVisibleImp c.eid, .setHeightAutoImp c.eid, .setMaxHeightNoneImp c.eid
  , .addExpandedMark c.eid ]

/-- src/lib.js lines 82-97: the treatment of one ancestor — applied only
when its computed overflow shorthand is `hidden` or its computed
`overflow-y` is `hidden`; the `bottom` offset is cleared only when the
ancestor's computed position is `fixed` or `absolute`. -/
def ancestorSteps (a : Elem) : List MStep :=
  if a.computed.overflow == "hidden" || a.computed.overflowY == "hidden" then
    [ .saveOverflow a.eid, .saveHeight a.eid, .saveMaxHeight a.eid, .saveBottom a.eid
    , .setOverflowVisibleImp a.eid, .setHeightAutoImp a.eid, .setMaxHeightNoneImp a.eid ]
    ++ (if a.computed.position == "fixed" || a.computed.position == "absolute" then
          [MStep.setBottomAutoImp a.eid]
        else [])
    ++ [MStep.addExpandedMark a.eid]
  else []

/-- src/lib.js lines 113-124: repositioning of one element — computed
`fixed` becomes inline `absolute`, computed `sticky` becomes inline
`relative`, with the original inline position recorded first. -/
def repositionSteps (e : Elem) : List MStep :=
  if e.computed.position == "fixed" then
    [.savePosition e.eid, .setPositionPlain e.eid "absolute", .addRepositionedMark e.eid]
  else if e.computed.position == "sticky" then
    [.savePosition e.eid, .setPositionPlain e.eid "relative", .addRepositionedMark e.eid]
  else []

/-- src/lib.js lines 130-138: the re-measured dimensions after expansion,
taken from the post-layout oracle; `document.body ? ... : 0` is the
body-absent guard. -/
def Doc.remeasuredHeight (d : Doc) : Int :=
  max (max d.postDocScrollHeight
        (match d.body with | some _ => d.postBodyScrollHeight | none => 0))
    d.postRectBottomCeil

/-- Re-measured width, src/lib.js lines 135-138. -/
def Doc.remeasuredWidth (d : Doc) : Int :=
  max d.postDocScrollWidth
    (match d.body with | some _ => d.postBodyScrollWidth | none => 0)

/-- src/lib.js lines 144-157: the body block.  The overflow/height/
max-height datasets and the expanded marker are added only when the body
does not already carry the marker at this point of the run — that is,
when it was neither the selected container nor a treated ancestor nor
marked before the call; then `min-height` is saved and forced to the
re-measured height. -/
def bodySteps (d : Doc) (c : Elem) : List MStep :=
  match d.body with
  | none => []
  | some b =>
    (if b.expandedMark || b.eid == c.eid
        || (d.ancestorChain c).any (fun a =>
              a.eid == b.eid &&
                (a.computed.overflow == "hidden" || a.computed.overflowY == "hidden"))
     then []
     else [MStep.saveOverflow b.eid, MStep.saveHeight b.eid, MStep.saveMaxHeight b.eid,
           MStep.addExpandedMark b.eid])
    ++ [MStep.saveMinHeight b.eid,
        MStep.setMinHeightImp b.eid (toString d.remeasuredHeight ++ "px")]

/-- src/lib.js lines 158-166: the documentElement block. -/
def docElSteps (d : Doc) : List MStep :=
  match d.docEl with
  | none => []
  | some r =>
    [MStep.saveMinHeight r.eid,
     MStep.setMinHeightImp r.eid (toString d.remeasuredHeight ++ "px")]

/-- All mutation steps of one `measurePageDimensions` run (empty when no
container is selected). -/
def measureSteps (d : Doc) : List MStep :=
  match d.selectedContainer with
  | none => []
  | some c =>
    containerSteps c
      ++ ((d.ancestorChain c).map ancestorSteps).flatten
      ++ (d.els.map repositionSteps).flatten
      ++ bodySteps d c
      ++ docElSteps d

/-- `measurePageDimensions()`: the returned `(width, height)` and the
mutated document. -/
def measurePageDimensions (d : Doc) : (Int × Int) × Doc :=
  match d.selectedContainer with
  | none => ((d.scan.1, d.scan.2.1), d)
  | some _ =>
    ((d.remeasuredWidth, d.remeasuredHeight), applySteps d (measureSteps d))

/-! ### restoreExpandedContainers (src/lib.js lines 176-222) -/

/-- src/lib.js lines 180-188, for one root: restore `min-height` from the
dataset if the attribute is present (`removeProperty` first, then re-set
when the saved value is nonempty) and delete the attribute. -/
def restoreRootMinHeight (e : Elem) : Elem :=
  match e.ds.oldMinHeight with
  | none => e
  | some v =>
    { e with
      style := { e.style with minHeight := v, minHeightImp := false }
      ds := { e.ds with oldMinHeight := none } }

/-- src/lib.js lines 193-199, for one repositioned element. -/
def restoreRepositioned (e : Elem) : Elem :=
  if e.repositionedMark then
    { e with
      style := { e.style with position := e.ds.oldPosition.getD "", positionImp := false }
      ds := { e.ds with oldPosition := none }
      repositionedMark := false }
  else e

/-- src/lib.js lines 200-221, for one expanded element. -/
def restoreExpanded (e : Elem) : Elem :=
  if e.expandedMark then
    let st1 :=
      { e.style with
        overflow := e.ds.oldOverflow.getD "", overflowImp := false
        height := e.ds.oldHeight.getD "", heightImp := false
        maxHeight := e.ds.oldMaxHeight.getD "", maxHeightImp := false }
    let st2 :=
      match e.ds.oldBottom with
      | none => st1
      | some b => { st1 with bottom := b, bottomImp := false }
    { e with
      style := st2
      ds := { e.ds with oldOverflow := none, oldHeight := none
                      , oldMaxHeight := none, oldBottom := none }
      expandedMark := false }
  else e

/-- `restoreExpandedContainers()`, src/lib.js lines 176-222. -/
def restoreExpandedContainers (d : Doc) : Doc :=
  -- line 177: remove the scrollbar-hiding style element
  let d1 : Doc := { d with styleElPresent := false }
  -- lines 180-188: the roots, documentElement then body
  let d2 := updateEl d1 d1.docElId restoreRootMinHeight
  let d3 :=
    match d2.bodyId with
    | some b => updateEl d2 b restoreRootMinHeight
    | none => d2
  -- lines 193-199 then 200-221
  let d4 : Doc := { d3 with els := d3.els.map restoreRepositioned }
  { d4 with els := d4.els.map restoreExpanded }

/-! ### Structural lemmas: pointwise action of the steps -/

lemma stepElemFn_eid (st : MStep) (e : Elem) : (stepElemFn st e).eid = e.eid := by
  cases st <;> rfl

lemma stepElemFn_parent (st : MStep) (e : Elem) : (stepElemFn st e).parent = e.parent := by
  cases st <;> rfl

lemma stepElemFn_computed (st : MStep) (e : Elem) :
    (stepElemFn st e).computed = e.computed := by
  cases st <;> rfl

/-- Run a list of steps on a single element (ignoring targets). -/
def elemApply (e : Elem) (L : List MStep) : Elem :=
  L.foldl (fun x st => stepElemFn st x) e

lemma elemApply_nil (e : Elem) : elemApply e [] = e := rfl

lemma elemApply_cons (e : Elem) (st : MStep) (L : List MStep) :
    elemApply e (st :: L) = elemApply (stepElemFn st e) L := rfl

lemma elemApply_append (e : Elem) (L₁ L₂ : List MStep) :
    elemApply e (L₁ ++ L₂) = elemApply (elemApply e L₁) L₂ := by
  simp [elemApply, List.foldl_append]

lemma applySteps_nil (d : Doc) : applySteps d [] = d := rfl

lemma applySteps_cons (d : Doc) (st : MStep) (L : List MStep) :
    applySteps d (st :: L) = applySteps (applyStep d st) L := rfl

lemma applyStep_scalars (d : Doc) (st : MStep) :
    (applyStep d st).docElId = d.docElId ∧ (applyStep d st).bodyId = d.bodyId ∧
    (applyStep d st).styleElPresent = d.styleElPresent := ⟨rfl, rfl, rfl⟩

lemma applySteps_docElId (d : Doc) (L : List MStep) :
    (applySteps d L).docElId = d.docElId := by
  induction L generalizing d with
  | nil => rfl
  | cons st L ih => rw [applySteps_cons, ih]; rfl

lemma applySteps_bodyId (d : Doc) (L : List MStep) :
    (applySteps d L).bodyId = d.bodyId := by
  induction L generalizing d with
  | nil => rfl
  | cons st L ih => rw [applySteps_cons, ih]; rfl

lemma applySteps_styleEl (d : Doc) (L : List MStep) :
    (applySteps d L).styleElPresent = d.styleElPresent := by
  induction L generalizing d with
  | nil => rfl
  | cons st L ih => rw [applySteps_cons, ih]; rfl

/-- The element list after a run of steps, pointwise: each element receives
exactly the steps that target its id, in order. -/
lemma applySteps_els (d : Doc) (L : List MStep) :
    (applySteps d L).els =
      d.els.map (fun e => elemApply e (L.filter (fun st => st.target == e.eid))) := by
  induction L generalizing d with
  | nil => simp [applySteps, elemApply]
  | cons st L ih =>
    rw [applySteps_cons, ih, applyStep, updateEl, List.map_map]
    refine List.map_congr_left (fun e _ => ?_)
    simp only [Function.comp]
    by_cases h : e.eid = st.target
    · rw [if_pos h, List.filter_cons]
      have ht : (st.target == e.eid) = true := by simp [h]
      rw [if_pos ht, elemApply_cons, stepElemFn_eid]
    · rw [if_neg h, List.filter_cons]
      have ht : (st.target == e.eid) = false := by
        simp only [beq_eq_false_iff_ne, ne_eq]
        exact fun hh => h hh.symm
      simp [ht]

/-! ### Per-element save/mutate ordering

Each property mutated by the measurement has a save step and one or more
mutating steps; the step lists emitted by `measureSteps` always save a
property before mutating it and save each (element, property) pair at most
once.  `ElemSeqOK` captures this ordering for the step sequence of a single
element, tracking the set of already-saved properties. -/

/-- The six saved properties. -/
inductive SProp
  | ovf | hgt | mxh | btm | pos | mnh
  deriving DecidableEq, Repr

/-- The property a step saves, if it is a save step. -/
def MStep.saveProp : MStep → Option SProp
  | .saveOverflow _ => some .ovf
  | .saveHeight _ => some .hgt
  | .saveMaxHeight _ => some .mxh
  | .saveBottom _ => some .btm
  | .savePosition _ => some .pos
  | .saveMinHeight _ => some .mnh
  | _ => none

/-- The properties a step requires to have been saved already: mutating
steps require their own property (the code always records the original
first), the expansion marker requires the three properties the restore
pass of the marker reads, the repositioning marker requires the position. -/
def MStep.needsProps : MStep → List SProp
  | .setOverflowVisibleImp _ => [.ovf]
  | .setHeightAutoImp _ => [.hgt]
  | .setMaxHeightNoneImp _ => [.mxh]
  | .setBottomAutoImp _ => [.btm]
  | .setPositionPlain _ _ => [.pos]
  | .setMinHeightImp _ _ => [.mnh]
  | .addExpandedMark _ => [.ovf, .hgt, .mxh]
  | .addRepositionedMark _ => [.pos]
  | _ => []

/-- The dataset slot of a property. -/
def dsProp (e : Elem) : SProp → Option String
  | .ovf => e.ds.oldOverflow
  | .hgt => e.ds.oldHeight
  | .mxh => e.ds.oldMaxHeight
  | .btm => e.ds.oldBottom
  | .pos => e.ds.oldPosition
  | .mnh => e.ds.oldMinHeight

/-- The inline style value of a property. -/
def styleProp (e : Elem) : SProp → String
  | .ovf => e.style.overflow
  | .hgt => e.style.height
  | .mxh => e.style.maxHeight
  | .btm => e.style.bottom
  | .pos => e.style.position
  | .mnh => e.style.minHeight

/-- Ordering discipline of a single element's step sequence. -/
def ElemSeqOK : List SProp → List MStep → Prop
  | _, [] => True
  | seen, st :: rest =>
    (∀ k ∈ st.needsProps, k ∈ seen) ∧
      match st.saveProp with
      | some k => k ∉ seen ∧ ElemSeqOK (k :: seen) rest
      | none => ElemSeqOK seen rest

lemma elemSeqOK_append_left {seen : List SProp} {A B : List MStep}
    (h : ElemSeqOK seen (A ++ B)) : ElemSeqOK seen A := by
  induction A generalizing seen with
  | nil => trivial
  | cons st A ih =>
    rw [List.cons_append] at h
    unfold ElemSeqOK at h ⊢
    refine ⟨h.1, ?_⟩
    rcases hs : st.saveProp with _ | k <;> rw [hs] at h
    · exact ih h.2
    · exact ⟨h.2.1, ih h.2.2⟩

/-- `ElemSeqOK` only depends on the membership content of `seen`. -/
lemma elemSeqOK_congr {seen seen' : List SProp} {L : List MStep}
    (hset : ∀ k, k ∈ seen ↔ k ∈ seen') (h : ElemSeqOK seen L) :
    ElemSeqOK seen' L := by
  induction L generalizing seen seen' with
  | nil => trivial
  | cons st L ih =>
    unfold ElemSeqOK at h ⊢
    refine ⟨fun k hk => (hset k).1 (h.1 k hk), ?_⟩
    rcases hs : st.saveProp with _ | k <;> rw [hs] at h
    · exact ih hset h.2
    · refine ⟨fun hk => h.2.1 ((hset k).2 hk), ?_⟩
      refine ih (fun k' => ?_) h.2.2
      simp only [List.mem_cons]
      exact or_congr Iff.rfl (hset k')

/-! ### The per-element saved-state invariant -/

/-- `ElemSaved e0 e`: relative to the pre-measurement element `e0`, for
every property either the save attribute is absent and the inline
declaration still has its original value and priority, or the save
attribute holds exactly the original inline value; and each marker class
implies the saves its restore pass reads are present. -/
def ElemSaved (e0 e : Elem) : Prop :=
  e.eid = e0.eid ∧ e.parent = e0.parent ∧ e.computed = e0.computed ∧
  (∀ k : SProp,
    (dsProp e k = none → styleProp e k = styleProp e0 k) ∧
    (∀ v, dsProp e k = some v → v = styleProp e0 k)) ∧
  (e.expandedMark = true →
    (dsProp e .ovf).isSome ∧ (dsProp e .hgt).isSome ∧ (dsProp e .mxh).isSome) ∧
  (e.repositionedMark = true → (dsProp e .pos).isSome)

/-- The `seen` accumulator matches the dataset content. -/
def SeenMatches (seen : List SProp) (e : Elem) : Prop :=
  ∀ k : SProp, k ∈ seen ↔ (dsProp e k).isSome

lemma elemSaved_refl (e0 : Elem) (hds : e0.ds = {}) (hexp : e0.expandedMark = false)
    (hrep : e0.repositionedMark = false) : ElemSaved e0 e0 := by
  refine ⟨rfl, rfl, rfl, fun k => ⟨fun _ => rfl, fun v hv => ?_⟩, ?_, ?_⟩
  · exfalso
    cases k <;> simp [dsProp, hds] at hv
  · intro h; rw [hexp] at h; cases h
  · intro h; rw [hrep] at h; cases h

lemma seenMatches_nil (e0 : Elem) (hds : e0.ds = {}) : SeenMatches [] e0 := by
  intro k
  cases k <;> simp [dsProp, hds]

/-! ### Uniform characterisation of a step's action on one element -/

/-- The property a step writes, with the written value. -/
def MStep.writeProp : MStep → Option (SProp × String)
  | .setOverflowVisibleImp _ => some (.ovf, "visible")
  | .setHeightAutoImp _ => some (.hgt, "auto")
  | .setMaxHeightNoneImp _ => some (.mxh, "none")
  | .setBottomAutoImp _ => some (.btm, "auto")
  | .setPositionPlain _ v => some (.pos, v)
  | .setMinHeightImp _ v => some (.mnh, v)
  | _ => none

/-- Is the step the expansion-marker step? -/
def MStep.isExpandMark : MStep → Bool
  | .addExpandedMark _ => true
  | _ => false

/-- Is the step the repositioning-marker step? -/
def MStep.isReposMark : MStep → Bool
  | .addRepositionedMark _ => true
  | _ => false

/-- Is the step the scroll-reset step? -/
def MStep.isScrollReset : MStep → Bool
  | .setScrollTopZero _ => true
  | _ => false

lemma dsProp_step (st : MStep) (e : Elem) (k : SProp) :
    dsProp (stepElemFn st e) k =
      match st.saveProp with
      | some k' => if k' = k then some (styleProp e k) else dsProp e k
      | none => dsProp e k := by
  cases st <;> cases k <;>
    simp [stepElemFn, dsProp, styleProp, MStep.saveProp]

lemma styleProp_step (st : MStep) (e : Elem) (k : SProp) :
    styleProp (stepElemFn st e) k =
      match st.writeProp with
      | some kv => if kv.1 = k then kv.2 else styleProp e k
      | none => styleProp e k := by
  cases st <;> cases k <;>
    simp [stepElemFn, styleProp, MStep.writeProp]

lemma expandedMark_step (st : MStep) (e : Elem) :
    (stepElemFn st e).expandedMark = (e.expandedMark || st.isExpandMark) := by
  cases st <;> simp [stepElemFn, MStep.isExpandMark]

lemma repositionedMark_step (st : MStep) (e : Elem) :
    (stepElemFn st e).repositionedMark = (e.repositionedMark || st.isReposMark) := by
  cases st <;> simp [stepElemFn, MStep.isReposMark]

lemma scrollTop_step (st : MStep) (e : Elem) :
    (stepElemFn st e).scrollTop = if st.isScrollReset then 0 else e.scrollTop := by
  cases st <;> simp [stepElemFn, MStep.isScrollReset]

/-- A step has a save or a write, never both. -/
lemma saveProp_writeProp (st : MStep) :
    st.saveProp = none ∨ st.writeProp = none := by
  cases st <;> simp [MStep.saveProp, MStep.writeProp]

lemma dsProp_step_none {st : MStep} (e : Elem) (k : SProp)
    (h : st.saveProp = none) : dsProp (stepElemFn st e) k = dsProp e k := by
  simp [dsProp_step, h]

lemma dsProp_step_some {st : MStep} {ks : SProp} (e : Elem) (k : SProp)
    (h : st.saveProp = some ks) :
    dsProp (stepElemFn st e) k =
      if ks = k then some (styleProp e k) else dsProp e k := by
  simp [dsProp_step, h]

lemma styleProp_step_none {st : MStep} (e : Elem) (k : SProp)
    (h : st.writeProp = none) : styleProp (stepElemFn st e) k = styleProp e k := by
  simp [styleProp_step, h]

lemma styleProp_step_some {st : MStep} {kv : SProp × String} (e : Elem) (k : SProp)
    (h : st.writeProp = some kv) :
    styleProp (stepElemFn st e) k = if kv.1 = k then kv.2 else styleProp e k := by
  simp [styleProp_step, h]

lemma writeProp_mem_needs :
    ∀ (st : MStep) (kv : SProp × String), st.writeProp = some kv →
      kv.1 ∈ st.needsProps := by
  intro st kv h
  cases st <;>
    first
      | exact Option.noConfusion h
      | (simp only [MStep.writeProp, Option.some.injEq] at h
         rw [← h]
         simp [MStep.needsProps])

lemma dsProp_step_isSome (st : MStep) (e : Elem) (k : SProp)
    (h : (dsProp e k).isSome) : (dsProp (stepElemFn st e) k).isSome := by
  rw [dsProp_step]
  rcases hs : st.saveProp with _ | k'
  · exact h
  · by_cases hk : k' = k <;> simp [hk, h]

/-- Preservation of the saved-state invariant along one well-ordered step. -/
lemma elemStep_preserve {e0 e : Elem} {seen : List SProp} {st : MStep}
    (hS : ElemSaved e0 e) (hM : SeenMatches seen e)
    (hneeds : ∀ k ∈ st.needsProps, k ∈ seen)
    (hfresh : ∀ k, st.saveProp = some k → k ∉ seen) :
    ElemSaved e0 (stepElemFn st e) ∧
      SeenMatches
        (match st.saveProp with | some k => k :: seen | none => seen)
        (stepElemFn st e) := by
  obtain ⟨heid, hpar, hcomp, hprops, hexpS, hrepS⟩ := hS
  have heid' : (stepElemFn st e).eid = e0.eid := (stepElemFn_eid st e).trans heid
  have hpar' : (stepElemFn st e).parent = e0.parent := (stepElemFn_parent st e).trans hpar
  have hcomp' : (stepElemFn st e).computed = e0.computed :=
    (stepElemFn_computed st e).trans hcomp
  -- the marker obligations
  have hmarkDs : ∀ k : SProp, (dsProp e k).isSome → (dsProp (stepElemFn st e) k).isSome :=
    fun k => dsProp_step_isSome st e k
  have hneedsDs : ∀ k ∈ st.needsProps, (dsProp e k).isSome :=
    fun k hk => (hM k).1 (hneeds k hk)
  refine ⟨⟨heid', hpar', hcomp', ?_, ?_, ?_⟩, ?_⟩
  · -- the per-property save discipline
    intro k
    rcases hsv : st.saveProp with _ | ks
    · -- not a save step: the dataset is unchanged, the style may be written
      have hds : dsProp (stepElemFn st e) k = dsProp e k := dsProp_step_none e k hsv
      constructor
      · intro hnone
        rw [hds] at hnone
        rcases hw : st.writeProp with _ | kv
        · rw [styleProp_step_none e k hw]
          exact (hprops k).1 hnone
        · rw [styleProp_step_some e k hw]
          by_cases hk : kv.1 = k
          · -- the written property must have been saved: contradiction with `none`
            exfalso
            have hmem := hneedsDs kv.1 (writeProp_mem_needs st kv hw)
            rw [hk, hnone] at hmem
            exact Bool.noConfusion hmem
          · rw [if_neg hk]
            exact (hprops k).1 hnone
      · intro v hv
        rw [hds] at hv
        exact (hprops k).2 v hv
    · -- a save step: the style is unchanged, the dataset gains the original
      have hst : styleProp (stepElemFn st e) k = styleProp e k := by
        rcases saveProp_writeProp st with h | h
        · rw [h] at hsv; cases hsv
        · exact styleProp_step_none e k h
      constructor
      · intro hnone
        rw [dsProp_step_some e k hsv] at hnone
        by_cases hk : ks = k
        · rw [if_pos hk] at hnone; cases hnone
        · rw [if_neg hk] at hnone
          rw [hst]
          exact (hprops k).1 hnone
      · intro v hv
        rw [dsProp_step_some e k hsv] at hv
        by_cases hk : ks = k
        · rw [if_pos hk] at hv
          have hvv : v = styleProp e k := (Option.some.inj hv).symm
          -- the slot was empty, so the current style is still the original
          have hempty : dsProp e k = none := by
            have hks := hfresh ks hsv
            rw [hk] at hks
            rcases hdk : dsProp e k with _ | w
            · rfl
            · exact absurd ((hM k).2 (by simp [hdk])) hks
          rw [hvv]
          exact (hprops k).1 hempty
        · rw [if_neg hk] at hv
          exact (hprops k).2 v hv
  · -- the expansion-marker obligation
    intro hmk
    rw [expandedMark_step, Bool.or_eq_true] at hmk
    rcases hmk with hold | hnew
    · obtain ⟨h1, h2, h3⟩ := hexpS hold
      exact ⟨hmarkDs _ h1, hmarkDs _ h2, hmarkDs _ h3⟩
    · have hn : st.needsProps = [SProp.ovf, SProp.hgt, SProp.mxh] := by
        cases st <;> simp_all [MStep.isExpandMark, MStep.needsProps]
      rw [hn] at hneedsDs
      exact ⟨hmarkDs _ (hneedsDs .ovf (by simp)), hmarkDs _ (hneedsDs .hgt (by simp)),
        hmarkDs _ (hneedsDs .mxh (by simp))⟩
  · -- the repositioning-marker obligation
    intro hmk
    rw [repositionedMark_step, Bool.or_eq_true] at hmk
    rcases hmk with hold | hnew
    · exact hmarkDs _ (hrepS hold)
    · have hn : st.needsProps = [SProp.pos] := by
        cases st <;> simp_all [MStep.isReposMark, MStep.needsProps]
      rw [hn] at hneedsDs
      exact hmarkDs _ (hneedsDs .pos (by simp))
  · -- the seen-set bookkeeping
    intro k
    rcases hsv : st.saveProp with _ | ks
    · rw [dsProp_step, hsv]
      exact hM k
    · rw [dsProp_step, hsv]
      by_cases hk : ks = k
      · simp [hk]
      · simp only [List.mem_cons, if_neg hk]
        constructor
        · rintro (h | h)
          · exact absurd h.symm hk
          · exact (hM k).1 h
        · intro h
          exact Or.inr ((hM k).2 h)

/-- The saved-state invariant holds after any well-ordered step sequence. -/
lemma elemApply_saved {e0 : Elem} :
    ∀ (S : List MStep) (seen : List SProp) (e : Elem),
      ElemSeqOK seen S → ElemSaved e0 e → SeenMatches seen e →
      ElemSaved e0 (elemApply e S) := by
  intro S
  induction S with
  | nil => intro seen e _ hS _; exact hS
  | cons st S ih =>
    intro seen e hOK hS hM
    unfold ElemSeqOK at hOK
    rw [elemApply_cons]
    rcases hsv : st.saveProp with _ | ks <;> rw [hsv] at hOK
    · have h := elemStep_preserve hS hM hOK.1 (fun k hk => by rw [hsv] at hk; cases hk)
      rw [hsv] at h
      exact ih seen _ hOK.2 h.1 h.2
    · have h := elemStep_preserve hS hM hOK.1
        (fun k hk => by rw [hsv] at hk; cases hk; exact hOK.2.1)
      rw [hsv] at h
      exact ih (ks :: seen) _ hOK.2.2 h.1 h.2

/-! ### Element lookup and identification -/

lemma find?_mem {d : Doc} {i : Nat} {e : Elem} (h : d.find? i = some e) : e ∈ d.els :=
  List.mem_of_find?_eq_some h

lemma find?_eid {d : Doc} {i : Nat} {e : Elem} (h : d.find? i = some e) : e.eid = i := by
  have := List.find?_some h
  exact eq_of_beq this

lemma eid_inj {d : Doc} (hn : (d.els.map Elem.eid).Nodup) {a b : Elem}
    (ha : a ∈ d.els) (hb : b ∈ d.els) (h : a.eid = b.eid) : a = b :=
  List.inj_on_of_nodup_map hn ha hb h

lemma ancestorChainAux_subset (d : Doc) :
    ∀ fuel p, ∀ a ∈ ancestorChainAux d fuel p, a ∈ d.els := by
  intro fuel
  induction fuel with
  | zero =>
    intro p a ha
    rcases p with _ | i <;> · unfold ancestorChainAux at ha; cases ha
  | succ n ih =>
    intro p a ha
    match p with
    | none => unfold ancestorChainAux at ha; cases ha
    | some i =>
      unfold ancestorChainAux at ha
      by_cases hi : i = d.docElId
      · rw [if_pos hi] at ha; cases ha
      · rw [if_neg hi] at ha
        rcases hf : d.find? i with _ | e
        · rw [hf] at ha; cases ha
        · rw [hf] at ha
          rcases List.mem_cons.1 ha with rfl | hmem
          · exact find?_mem hf
          · exact ih _ a hmem

lemma ancestorChain_subset {d : Doc} {c : Elem} :
    ∀ a ∈ d.ancestorChain c, a ∈ d.els :=
  fun a ha => ancestorChainAux_subset d _ _ a ha

/-! ### Targets of the emitted blocks -/

lemma containerSteps_target (c : Elem) : ∀ st ∈ containerSteps c, st.target = c.eid := by
  unfold containerSteps
  simp [List.forall_mem_cons, MStep.target]

lemma ancestorSteps_target (a : Elem) : ∀ st ∈ ancestorSteps a, st.target = a.eid := by
  unfold ancestorSteps
  split_ifs <;> simp [List.forall_mem_cons, List.forall_mem_append, MStep.target]

lemma repositionSteps_target (e : Elem) : ∀ st ∈ repositionSteps e, st.target = e.eid := by
  unfold repositionSteps
  split_ifs <;> simp [List.forall_mem_cons, MStep.target]

lemma bodySteps_target {d : Doc} {c b : Elem} (hb : d.body = some b) :
    ∀ st ∈ bodySteps d c, st.target = b.eid := by
  unfold bodySteps
  simp only [hb]
  split_ifs <;> simp [List.forall_mem_cons, List.forall_mem_append, MStep.target]

lemma docElSteps_target {d : Doc} {r : Elem} (hr : d.docEl = some r) :
    ∀ st ∈ docElSteps d, st.target = r.eid := by
  unfold docElSteps
  simp only [hr]
  simp [List.forall_mem_cons, MStep.target]

/-! ### Filtering the emitted steps to one element -/

lemma filter_target_all {L : List MStep} {j : Nat} (h : ∀ st ∈ L, st.target = j)
    (i : Nat) : L.filter (fun st => st.target == i) = if j = i then L else [] := by
  split_ifs with hj
  · subst hj
    refine List.filter_eq_self.2 (fun st hst => ?_)
    simp [h st hst]
  · refine List.filter_eq_nil_iff.2 (fun st hst => ?_)
    simp [h st hst, hj]

lemma filter_flatten_steps (p : MStep → Bool) (l : List (List MStep)) :
    l.flatten.filter p = (l.map (fun L => L.filter p)).flatten := by
  induction l with
  | nil => rfl
  | cons L l ih => simp [List.filter_append, ih]

lemma flatten_pick (l : List Elem) (f : Elem → List MStep) (e : Elem)
    (hn : (l.map Elem.eid).Nodup)
    (huniq : ∀ a ∈ l, a.eid = e.eid → a = e) :
    (l.map (fun a => if a.eid = e.eid then f a else [])).flatten
      = if e ∈ l then f e else [] := by
  induction l with
  | nil => simp
  | cons a l ih =>
    rw [List.map_cons, List.nodup_cons] at hn
    rw [List.map_cons, List.flatten_cons]
    by_cases ha : a.eid = e.eid
    · have hae : a = e := huniq a (List.mem_cons_self a l) ha
      rw [if_pos ha, if_pos (by rw [← hae]; exact List.mem_cons_self a l)]
      have hz : (l.map (fun b => if b.eid = e.eid then f b else [])) =
          l.map (fun _ => ([] : List MStep)) := by
        refine List.map_congr_left (fun b hb => ?_)
        rw [if_neg]
        intro hbe
        refine hn.1 ?_
        rw [ha, ← hbe]
        exact List.mem_map_of_mem Elem.eid hb
      rw [hz, hae]
      simp
    · rw [if_neg ha, List.nil_append]
      have hmem : (e ∈ a :: l) ↔ (e ∈ l) := by
        simp only [List.mem_cons]
        constructor
        · rintro (rfl | h)
          · exact absurd rfl ha
          · exact h
        · exact Or.inr
      rw [ih hn.2 (fun b hb => huniq b (List.mem_cons_of_mem a hb))]
      by_cases hel : e ∈ l
      · rw [if_pos hel, if_pos (hmem.2 hel)]
      · rw [if_neg hel, if_neg (fun hc => hel (hmem.1 hc))]

/-! ### Well-formedness of a document -/

/-- `true` when the selected container's ancestor chain revisits no element
and does not contain the container itself — automatic on a real (acyclic)
DOM tree. -/
def chainNodupOK (d : Doc) : Bool :=
  match d.selectedContainer with
  | some c => decide (((c :: d.ancestorChain c).map Elem.eid).Nodup)
  | none => true

/-- Well-formedness: distinct element ids, body and root distinct, and an
acyclic ancestor chain for the selected container. -/
def DocWF (d : Doc) : Prop :=
  (d.els.map Elem.eid).Nodup ∧ d.bodyId ≠ some d.docElId ∧ chainNodupOK d = true

/-- A document on which the measurement has not (yet) acted: no markers, no
reversal attributes, no injected style element. -/
def CleanDoc (d : Doc) : Prop :=
  (∀ e ∈ d.els, e.expandedMark = false ∧ e.repositionedMark = false ∧ e.ds = {}) ∧
  d.styleElPresent = false

lemma docWF_chain {d : Doc} (hwf : DocWF d) {c : Elem}
    (hc : d.selectedContainer = some c) :
    ((c :: d.ancestorChain c).map Elem.eid).Nodup := by
  have h := hwf.2.2
  unfold chainNodupOK at h
  rw [hc] at h
  exact of_decide_eq_true h

lemma body_mem {d : Doc} {b : Elem} (hb : d.body = some b) : b ∈ d.els := by
  unfold Doc.body at hb
  rcases hid : d.bodyId with _ | i
  · rw [hid] at hb; cases hb
  · rw [hid] at hb
    exact find?_mem hb

lemma docEl_mem {d : Doc} {r : Elem} (hr : d.docEl = some r) : r ∈ d.els :=
  find?_mem hr

lemma scan_container_mem :
    ∀ (l : List Elem) (acc : Int × Int × Option Elem) (c : Elem),
      (l.foldl scanStep acc).2.2 = some c → acc.2.2 = some c ∨ c ∈ l := by
  intro l
  induction l with
  | nil => intro acc c h; exact Or.inl h
  | cons a l ih =>
    intro acc c h
    rw [List.foldl_cons] at h
    rcases ih _ c h with hacc | hl
    · by_cases hcond : (isScrollCandidate a && decide (acc.2.1 < a.scrollHeight)) = true
      · rw [scanStep, if_pos hcond] at hacc
        simp only at hacc
        exact Or.inr (by rw [← Option.some.inj hacc]; exact List.mem_cons_self a l)
      · rw [scanStep, if_neg hcond] at hacc
        exact Or.inl hacc
    · exact Or.inr (List.mem_cons_of_mem a hl)

lemma selectedContainer_mem {d : Doc} {c : Elem}
    (hc : d.selectedContainer = some c) : c ∈ d.els := by
  unfold Doc.selectedContainer Doc.scan at hc
  rcases scan_container_mem d.els _ c hc with h | h
  · cases h
  · exact h

/-! ### The step sequence of one element -/

/-- The bridge lemma: restricted to one element, a full `measureSteps` run
is the element's own blocks in program order. -/
lemma measureSteps_filter {d : Doc} (hwf : DocWF d) {c : Elem}
    (hc : d.selectedContainer = some c) {e : Elem} (he : e ∈ d.els) :
    (measureSteps d).filter (fun st => st.target == e.eid) =
      (if c.eid = e.eid then containerSteps c else [])
        ++ (if e ∈ d.ancestorChain c then ancestorSteps e else [])
        ++ repositionSteps e
        ++ (if d.body = some e then bodySteps d c else [])
        ++ (if d.docEl = some e then docElSteps d else []) := by
  obtain ⟨hnodup, hbd, hch⟩ := hwf
  have hchain := docWF_chain ⟨hnodup, hbd, hch⟩ hc
  rw [List.map_cons, List.nodup_cons] at hchain
  unfold measureSteps
  rw [hc]
  rw [List.filter_append, List.filter_append, List.filter_append, List.filter_append]
  have h1 : (containerSteps c).filter (fun st => st.target == e.eid) =
      if c.eid = e.eid then containerSteps c else [] :=
    filter_target_all (containerSteps_target c) e.eid
  have h2 : ((d.ancestorChain c).map ancestorSteps).flatten.filter
        (fun st => st.target == e.eid) =
      if e ∈ d.ancestorChain c then ancestorSteps e else [] := by
    rw [filter_flatten_steps, List.map_map]
    have hmapeq : (d.ancestorChain c).map
          ((fun L => L.filter (fun st => st.target == e.eid)) ∘ ancestorSteps) =
        (d.ancestorChain c).map (fun a => if a.eid = e.eid then ancestorSteps a else []) :=
      List.map_congr_left (fun a _ =>
        filter_target_all (ancestorSteps_target a) e.eid)
    rw [hmapeq]
    exact flatten_pick _ _ _ hchain.2
      (fun a ha hae => eid_inj hnodup (ancestorChain_subset a ha) he hae)
  have h3 : (d.els.map repositionSteps).flatten.filter
        (fun st => st.target == e.eid) = repositionSteps e := by
    rw [filter_flatten_steps, List.map_map]
    have hmapeq : d.els.map
          ((fun L => L.filter (fun st => st.target == e.eid)) ∘ repositionSteps) =
        d.els.map (fun a => if a.eid = e.eid then repositionSteps a else []) :=
      List.map_congr_left (fun a _ =>
        filter_target_all (repositionSteps_target a) e.eid)
    rw [hmapeq, flatten_pick _ _ _ hnodup (fun a ha hae => eid_inj hnodup ha he hae),
      if_pos he]
  have h4 : (bodySteps d c).filter (fun st => st.target == e.eid) =
      if d.body = some e then bodySteps d c else [] := by
    rcases hb : d.body with _ | b
    · have : bodySteps d c = [] := by unfold bodySteps; rw [hb]
      rw [this]
      simp
    · rw [filter_target_all (bodySteps_target hb) e.eid]
      by_cases hbe : b.eid = e.eid
      · have : b = e := eid_inj hnodup (body_mem hb) he hbe
        rw [if_pos hbe, if_pos (by rw [← this])]
      · refine (if_neg hbe).trans (if_neg (fun hcon => hbe ?_)).symm
        exact congrArg Elem.eid (Option.some.inj hcon)
  have h5 : (docElSteps d).filter (fun st => st.target == e.eid) =
      if d.docEl = some e then docElSteps d else [] := by
    rcases hr : d.docEl with _ | r
    · have : docElSteps d = [] := by unfold docElSteps; rw [hr]
      rw [this]
      simp
    · rw [filter_target_all (docElSteps_target hr) e.eid]
      by_cases hre : r.eid = e.eid
      · have : r = e := eid_inj hnodup (docEl_mem hr) he hre
        rw [if_pos hre, if_pos (by rw [← this])]
      · refine (if_neg hre).trans (if_neg (fun hcon => hre ?_)).symm
        exact congrArg Elem.eid (Option.some.inj hcon)
  rw [h1, h2, h3, h4, h5]

/-! ### The emitted per-element sequence satisfies the ordering discipline -/

/-- The saves of a step list. -/
def savesOf (L : List MStep) : List SProp := L.filterMap MStep.saveProp

lemma elemSeqOK_append {seen : List SProp} {A B : List MStep}
    (hA : ElemSeqOK seen A) (hB : ElemSeqOK (savesOf A ++ seen) B) :
    ElemSeqOK seen (A ++ B) := by
  induction A generalizing seen with
  | nil =>
    simpa [savesOf] using hB
  | cons st A ih =>
    rw [List.cons_append]
    unfold ElemSeqOK at hA ⊢
    refine ⟨hA.1, ?_⟩
    rcases hs : st.saveProp with _ | k <;> rw [hs] at hA
    · refine ih hA.2 ?_
      have : savesOf (st :: A) = savesOf A := by simp [savesOf, hs]
      rw [this] at hB
      exact hB
    · refine ⟨hA.2.1, ih hA.2.2 ?_⟩
      have : savesOf (st :: A) = k :: savesOf A := by simp [savesOf, hs]
      rw [this] at hB
      refine elemSeqOK_congr (fun k' => ?_) hB
      simp only [List.mem_append, List.mem_cons]
      tauto

lemma savesOf_containerSteps (c : Elem) :
    savesOf (containerSteps c) = [SProp.ovf, SProp.hgt, SProp.mxh] := by
  simp [savesOf, containerSteps, MStep.saveProp]

lemma seqOK_containerSteps (c : Elem) (seen : List SProp)
    (h1 : SProp.ovf ∉ seen) (h2 : SProp.hgt ∉ seen) (h3 : SProp.mxh ∉ seen) :
    ElemSeqOK seen (containerSteps c) := by
  simp [ElemSeqOK, containerSteps, MStep.saveProp, MStep.needsProps, h1, h2, h3]

lemma savesOf_ancestorSteps (a : Elem) :
    savesOf (ancestorSteps a) =
      if a.computed.overflow == "hidden" || a.computed.overflowY == "hidden" then
        [SProp.ovf, SProp.hgt, SProp.mxh, SProp.btm]
      else [] := by
  unfold ancestorSteps
  split_ifs with h h2 <;> simp [savesOf, MStep.saveProp]

lemma seqOK_ancestorSteps (a : Elem) (seen : List SProp)
    (h1 : SProp.ovf ∉ seen) (h2 : SProp.hgt ∉ seen) (h3 : SProp.mxh ∉ seen)
    (h4 : SProp.btm ∉ seen) :
    ElemSeqOK seen (ancestorSteps a) := by
  unfold ancestorSteps
  split_ifs with h h2' <;>
    simp [ElemSeqOK, MStep.saveProp, MStep.needsProps, h1, h2, h3, h4]

lemma savesOf_repositionSteps (e : Elem) :
    savesOf (repositionSteps e) =
      if e.computed.position == "fixed" || e.computed.position == "sticky" then
        [SProp.pos]
      else [] := by
  unfold repositionSteps
  split_ifs with h h2 <;> simp_all [savesOf, MStep.saveProp]

lemma seqOK_repositionSteps (e : Elem) (seen : List SProp)
    (h : SProp.pos ∉ seen) : ElemSeqOK seen (repositionSteps e) := by
  unfold repositionSteps
  split_ifs <;> simp [ElemSeqOK, MStep.saveProp, MStep.needsProps, h]

lemma savesOf_bodySteps {d : Doc} {c b : Elem} (hb : d.body = some b) :
    savesOf (bodySteps d c) =
      (if (b.expandedMark || b.eid == c.eid
            || (d.ancestorChain c).any (fun a =>
              a.eid == b.eid &&
                (a.computed.overflow == "hidden" || a.computed.overflowY == "hidden")))
          = true
       then [] else [SProp.ovf, SProp.hgt, SProp.mxh]) ++ [SProp.mnh] := by
  unfold bodySteps
  simp only [hb]
  split_ifs with h <;> simp [savesOf, MStep.saveProp]

lemma seqOK_bodySteps {d : Doc} {c b : Elem} (hb : d.body = some b)
    (seen : List SProp) (hm : SProp.mnh ∉ seen)
    (hfresh : (b.expandedMark || b.eid == c.eid
        || (d.ancestorChain c).any (fun a =>
          a.eid == b.eid &&
            (a.computed.overflow == "hidden" || a.computed.overflowY == "hidden")))
        = false →
      SProp.ovf ∉ seen ∧ SProp.hgt ∉ seen ∧ SProp.mxh ∉ seen) :
    ElemSeqOK seen (bodySteps d c) := by
  unfold bodySteps
  simp only [hb]
  split_ifs with h
  · simp [ElemSeqOK, MStep.saveProp, MStep.needsProps, hm]
  · obtain ⟨f1, f2, f3⟩ := hfresh (by simpa using h)
    simp [ElemSeqOK, MStep.saveProp, MStep.needsProps, hm, f1, f2, f3]

lemma savesOf_docElSteps {d : Doc} {r : Elem} (hr : d.docEl = some r) :
    savesOf (docElSteps d) = [SProp.mnh] := by
  unfold docElSteps
  simp only [hr]
  simp [savesOf, MStep.saveProp]

lemma seqOK_docElSteps {d : Doc} {r : Elem} (hr : d.docEl = some r)
    (seen : List SProp) (hm : SProp.mnh ∉ seen) :
    ElemSeqOK seen (docElSteps d) := by
  unfold docElSteps
  simp only [hr]
  simp [ElemSeqOK, MStep.saveProp, MStep.needsProps, hm]

lemma body_docEl_distinct {d : Doc} (hbd : d.bodyId ≠ some d.docElId) {e : Elem}
    (hb : d.body = some e) (hr : d.docEl = some e) : False := by
  unfold Doc.body at hb
  rcases hid : d.bodyId with _ | i
  · rw [hid] at hb; cases hb
  · rw [hid] at hb
    have h1 : e.eid = i := find?_eid hb
    have h2 : e.eid = d.docElId := find?_eid hr
    exact hbd (by rw [hid, ← h1, h2])

/-- The per-element sequence of a full measurement run is well ordered. -/
lemma elemSeq_ok {d : Doc} {c e : Elem}
    (hwf : DocWF d) (hc : d.selectedContainer = some c) (he : e ∈ d.els) :
    ElemSeqOK []
      ((if c.eid = e.eid then containerSteps c else [])
        ++ (if e ∈ d.ancestorChain c then ancestorSteps e else [])
        ++ repositionSteps e
        ++ (if d.body = some e then bodySteps d c else [])
        ++ (if d.docEl = some e then docElSteps d else [])) := by
  have hchain := docWF_chain hwf hc
  rw [List.map_cons, List.nodup_cons] at hchain
  rw [List.append_assoc, List.append_assoc, List.append_assoc]
  set A := (if c.eid = e.eid then containerSteps c else []) with hA
  set B := (if e ∈ d.ancestorChain c then ancestorSteps e else []) with hB
  set C := repositionSteps e with hC
  set D := (if d.body = some e then bodySteps d c else []) with hD
  set E := (if d.docEl = some e then docElSteps d else []) with hE
  -- which properties the leading segments can save
  have hAfree : ∀ k ∈ savesOf A, k = SProp.ovf ∨ k = SProp.hgt ∨ k = SProp.mxh := by
    intro k hk
    rw [hA] at hk
    split_ifs at hk
    · rw [savesOf_containerSteps] at hk
      simpa using hk
    · simp [savesOf] at hk
  have hApos : SProp.pos ∉ savesOf A := fun hk => by
    rcases hAfree _ hk with h | h | h <;> cases h
  have hAmnh : SProp.mnh ∉ savesOf A := fun hk => by
    rcases hAfree _ hk with h | h | h <;> cases h
  have hBfree : ∀ k ∈ savesOf B,
      k = SProp.ovf ∨ k = SProp.hgt ∨ k = SProp.mxh ∨ k = SProp.btm := by
    intro k hk
    rw [hB] at hk
    split_ifs at hk with hmem
    · rw [savesOf_ancestorSteps] at hk
      split_ifs at hk
      · simpa using hk
      · simp at hk
    · simp [savesOf] at hk
  have hBpos : SProp.pos ∉ savesOf B := fun hk => by
    rcases hBfree _ hk with h | h | h | h <;> cases h
  have hBmnh : SProp.mnh ∉ savesOf B := fun hk => by
    rcases hBfree _ hk with h | h | h | h <;> cases h
  have hConly : ∀ k ∈ savesOf C, k = SProp.pos := by
    intro k hk
    rw [hC, savesOf_repositionSteps] at hk
    split_ifs at hk <;> simp at hk
    exact hk
  have hCovf : SProp.ovf ∉ savesOf C := fun hk => by cases hConly _ hk
  have hChgt : SProp.hgt ∉ savesOf C := fun hk => by cases hConly _ hk
  have hCmxh : SProp.mxh ∉ savesOf C := fun hk => by cases hConly _ hk
  have hCmnh : SProp.mnh ∉ savesOf C := fun hk => by cases hConly _ hk
  have hexcl1 : c.eid = e.eid → e ∉ d.ancestorChain c := by
    intro h1 hmem
    exact hchain.1 (h1 ▸ List.mem_map_of_mem Elem.eid hmem)
  refine elemSeqOK_append ?_ (elemSeqOK_append ?_ (elemSeqOK_append ?_
    (elemSeqOK_append ?_ ?_)))
  · -- segment A
    rw [hA]
    split_ifs
    · exact seqOK_containerSteps c [] (by simp) (by simp) (by simp)
    · trivial
  · -- segment B
    rw [hB]
    split_ifs with hmem
    · have h1 : ¬(c.eid = e.eid) := fun h => hexcl1 h hmem
      have hAnil : A = [] := by rw [hA, if_neg h1]
      refine seqOK_ancestorSteps e _ ?_ ?_ ?_ ?_ <;> simp [hAnil, savesOf]
    · trivial
  · -- segment C
    refine seqOK_repositionSteps e _ ?_
    intro hk
    rcases List.mem_append.1 hk with hk | hk
    · exact hBpos hk
    · rw [List.append_nil] at hk
      exact hApos hk
  · -- segment D
    rw [hD]
    split_ifs with hbe
    · refine seqOK_bodySteps hbe _ ?_ ?_
      · intro hk
        rcases List.mem_append.1 hk with hk | hk
        · exact hCmnh hk
        · rcases List.mem_append.1 hk with hk | hk
          · exact hBmnh hk
          · rw [List.append_nil] at hk
            exact hAmnh hk
      · intro hguard
        rw [Bool.or_eq_false_iff, Bool.or_eq_false_iff] at hguard
        have h1 : ¬(c.eid = e.eid) := by
          intro h
          have := hguard.1.2
          simp [h] at this
        have hAnil : A = [] := by rw [hA, if_neg h1]
        have hBnil : savesOf B = [] := by
          rw [hB]
          split_ifs with hmem
          · rw [savesOf_ancestorSteps]
            have hany := hguard.2
            rw [List.any_eq_false] at hany
            have := hany e hmem
            simp only [beq_self_eq_true, Bool.true_and] at this
            rw [if_neg (by simp [this])]
          · simp [savesOf]
        have hgen : ∀ k : SProp, k ∈ savesOf C → k = SProp.pos := hConly
        refine ⟨?_, ?_, ?_⟩ <;>
          · intro hk
            rcases List.mem_append.1 hk with hk | hk
            · cases hgen _ hk
            · rcases List.mem_append.1 hk with hk | hk
              · rw [hBnil] at hk
                cases hk
              · rw [List.append_nil, hAnil] at hk
                simp [savesOf] at hk
    · trivial
  · -- segment E
    rw [hE]
    split_ifs with hde
    · refine seqOK_docElSteps hde _ ?_
      have hDmnh : SProp.mnh ∉ savesOf D := by
        rw [hD]
        split_ifs with hbe
        · exact absurd (body_docEl_distinct hwf.2.1 hbe hde) not_false
        · simp [savesOf]
      intro hk
      rcases List.mem_append.1 hk with hk | hk
      · exact hDmnh hk
      · rcases List.mem_append.1 hk with hk | hk
        · exact hCmnh hk
        · rcases List.mem_append.1 hk with hk | hk
          · exact hBmnh hk
          · rw [List.append_nil] at hk
            exact hAmnh hk
    · trivial

/-! ### The invariant holds after any partial measurement run -/

/-- After any prefix of a measurement run, every element of a clean
well-formed document satisfies the saved-state invariant. -/
lemma measure_elemSaved {d : Doc} (hwf : DocWF d) (hclean : CleanDoc d)
    {c : Elem} (hc : d.selectedContainer = some c)
    {e0 : Elem} (he : e0 ∈ d.els) (k : Nat) :
    ElemSaved e0 (elemApply e0
      (((measureSteps d).take k).filter (fun st => st.target == e0.eid))) := by
  have hpref : ((measureSteps d).take k).filter (fun st => st.target == e0.eid) <+:
      (measureSteps d).filter (fun st => st.target == e0.eid) :=
    (List.take_prefix k _).filter _
  obtain ⟨suf, hsuf⟩ := hpref
  have hOK : ElemSeqOK []
      ((measureSteps d).filter (fun st => st.target == e0.eid)) := by
    rw [measureSteps_filter hwf hc he]
    exact elemSeq_ok hwf hc he
  rw [← hsuf] at hOK
  obtain ⟨hexp, hrep, hds⟩ := hclean.1 e0 he
  exact elemApply_saved _ [] e0 (elemSeqOK_append_left hOK)
    (elemSaved_refl e0 hds hexp hrep) (seenMatches_nil e0 hds)

/-! ### Pointwise form of restoreExpandedContainers -/

/-- The action of `restoreExpandedContainers` on one element. -/
def restoreElem (docElId : Nat) (bodyId : Option Nat) (e : Elem) : Elem :=
  let e1 := if e.eid = docElId then restoreRootMinHeight e else e
  let e2 :=
    match bodyId with
    | some b => if e1.eid = b then restoreRootMinHeight e1 else e1
    | none => e1
  restoreExpanded (restoreRepositioned e2)

lemma restoreRootMinHeight_eid (e : Elem) : (restoreRootMinHeight e).eid = e.eid := by
  unfold restoreRootMinHeight
  rcases e.ds.oldMinHeight <;> rfl

lemma restore_scalars (d : Doc) :
    (restoreExpandedContainers d).docElId = d.docElId ∧
    (restoreExpandedContainers d).bodyId = d.bodyId ∧
    (restoreExpandedContainers d).styleElPresent = false := by
  unfold restoreExpandedContainers
  rcases d.bodyId <;> exact ⟨rfl, rfl, rfl⟩

lemma restore_els (d : Doc) :
    (restoreExpandedContainers d).els =
      d.els.map (restoreElem d.docElId d.bodyId) := by
  unfold restoreExpandedContainers restoreElem
  rcases hb : d.bodyId with _ | b
  · simp only [updateEl, List.map_map]
    rfl
  · simp only [updateEl, List.map_map]
    refine (List.map_congr_left (fun e _ => ?_))
    by_cases h1 : e.eid = d.docElId <;>
      simp [Function.comp, h1, restoreRootMinHeight_eid]

/-! ### Frame lemmas for the three restore passes -/

lemma restoreRootMinHeight_keeps (e : Elem) :
    (restoreRootMinHeight e).style.overflow = e.style.overflow ∧
    (restoreRootMinHeight e).style.height = e.style.height ∧
    (restoreRootMinHeight e).style.maxHeight = e.style.maxHeight ∧
    (restoreRootMinHeight e).style.bottom = e.style.bottom ∧
    (restoreRootMinHeight e).style.position = e.style.position ∧
    (restoreRootMinHeight e).ds.oldOverflow = e.ds.oldOverflow ∧
    (restoreRootMinHeight e).ds.oldHeight = e.ds.oldHeight ∧
    (restoreRootMinHeight e).ds.oldMaxHeight = e.ds.oldMaxHeight ∧
    (restoreRootMinHeight e).ds.oldBottom = e.ds.oldBottom ∧
    (restoreRootMinHeight e).ds.oldPosition = e.ds.oldPosition ∧
    (restoreRootMinHeight e).expandedMark = e.expandedMark ∧
    (restoreRootMinHeight e).repositionedMark = e.repositionedMark ∧
    (restoreRootMinHeight e).scrollTop = e.scrollTop := by
  unfold restoreRootMinHeight
  rcases e.ds.oldMinHeight <;> exact ⟨rfl, rfl, rfl, rfl, rfl, rfl, rfl, rfl, rfl, rfl,
    rfl, rfl, rfl⟩

lemma restoreRepositioned_keeps (e : Elem) :
    (restoreRepositioned e).style.overflow = e.style.overflow ∧
    (restoreRepositioned e).style.height = e.style.height ∧
    (restoreRepositioned e).style.maxHeight = e.style.maxHeight ∧
    (restoreRepositioned e).style.bottom = e.style.bottom ∧
    (restoreRepositioned e).style.minHeight = e.style.minHeight ∧
    (restoreRepositioned e).ds.oldOverflow = e.ds.oldOverflow ∧
    (restoreRepositioned e).ds.oldHeight = e.ds.oldHeight ∧
    (restoreRepositioned e).ds.oldMaxHeight = e.ds.oldMaxHeight ∧
    (restoreRepositioned e).ds.oldBottom = e.ds.oldBottom ∧
    (restoreRepositioned e).ds.oldMinHeight = e.ds.oldMinHeight ∧
    (restoreRepositioned e).expandedMark = e.expandedMark ∧
    (restoreRepositioned e).scrollTop = e.scrollTop := by
  unfold restoreRepositioned
  split_ifs <;> exact ⟨rfl, rfl, rfl, rfl, rfl, rfl, rfl, rfl, rfl, rfl, rfl, rfl⟩

lemma restoreRepositioned_mark (e : Elem) :
    (restoreRepositioned e).repositionedMark = false ∨
      (restoreRepositioned e = e ∧ e.repositionedMark = false) := by
  unfold restoreRepositioned
  split_ifs with h
  · exact Or.inl rfl
  · exact Or.inr ⟨rfl, by simpa using h⟩

lemma restoreExpanded_keeps (e : Elem) :
    (restoreExpanded e).style.position = e.style.position ∧
    (restoreExpanded e).style.minHeight = e.style.minHeight ∧
    (restoreExpanded e).ds.oldPosition = e.ds.oldPosition ∧
    (restoreExpanded e).ds.oldMinHeight = e.ds.oldMinHeight ∧
    (restoreExpanded e).repositionedMark = e.repositionedMark ∧
    (restoreExpanded e).scrollTop = e.scrollTop := by
  unfold restoreExpanded
  split_ifs with h
  · rcases e.ds.oldBottom <;> exact ⟨rfl, rfl, rfl, rfl, rfl, rfl⟩
  · exact ⟨rfl, rfl, rfl, rfl, rfl, rfl⟩

lemma restoreExpanded_mark (e : Elem) :
    (restoreExpanded e).expandedMark = false ∨
      (restoreExpanded e = e ∧ e.expandedMark = false) := by
  unfold restoreExpanded
  split_ifs with h
  · rcases e.ds.oldBottom <;> exact Or.inl rfl
  · exact Or.inr ⟨rfl, by simpa using h⟩

/-- After restore, no element carries either marker. -/
lemma restoreElem_marks (docElId : Nat) (bodyId : Option Nat) (e : Elem) :
    (restoreElem docElId bodyId e).expandedMark = false ∧
    (restoreElem docElId bodyId e).repositionedMark = false := by
  unfold restoreElem
  constructor
  · rcases restoreExpanded_mark (restoreRepositioned _) with h | ⟨he, hm⟩
    · exact h
    · rw [he]
      rw [(restoreRepositioned_keeps _).2.2.2.2.2.2.2.2.2.2.1] at hm ⊢
      exact hm
  · rw [(restoreExpanded_keeps _).2.2.2.2.1]
    rcases restoreRepositioned_mark
        (match bodyId with
          | some b =>
            if (if e.eid = docElId then restoreRootMinHeight e else e).eid = b then
              restoreRootMinHeight (if e.eid = docElId then restoreRootMinHeight e else e)
            else (if e.eid = docElId then restoreRootMinHeight e else e)
          | none => (if e.eid = docElId then restoreRootMinHeight e else e)) with
        h | ⟨he, hm⟩
    · exact h
    · rw [he]
      exact hm

/-! ### Per-element restore correctness -/

/-- The two root passes of the restore, on one element. -/
def rootAdjust (docElId : Nat) (bodyId : Option Nat) (e : Elem) : Elem :=
  let e1 := if e.eid = docElId then restoreRootMinHeight e else e
  match bodyId with
  | some b => if e1.eid = b then restoreRootMinHeight e1 else e1
  | none => e1

lemma restoreElem_eq (docElId : Nat) (bodyId : Option Nat) (e : Elem) :
    restoreElem docElId bodyId e =
      restoreExpanded (restoreRepositioned (rootAdjust docElId bodyId e)) := rfl

/-- Equality of all element fields except `min-height` and its save slot —
what the root passes preserve. -/
def CoreEq (a b : Elem) : Prop :=
  a.eid = b.eid ∧
  a.style.overflow = b.style.overflow ∧ a.style.height = b.style.height ∧
  a.style.maxHeight = b.style.maxHeight ∧ a.style.bottom = b.style.bottom ∧
  a.style.position = b.style.position ∧
  a.ds.oldOverflow = b.ds.oldOverflow ∧ a.ds.oldHeight = b.ds.oldHeight ∧
  a.ds.oldMaxHeight = b.ds.oldMaxHeight ∧ a.ds.oldBottom = b.ds.oldBottom ∧
  a.ds.oldPosition = b.ds.oldPosition ∧
  a.expandedMark = b.expandedMark ∧ a.repositionedMark = b.repositionedMark ∧
  a.scrollTop = b.scrollTop

lemma coreEq_refl (a : Elem) : CoreEq a a :=
  ⟨rfl, rfl, rfl, rfl, rfl, rfl, rfl, rfl, rfl, rfl, rfl, rfl, rfl, rfl⟩

lemma coreEq_trans {a b c : Elem} (h1 : CoreEq a b) (h2 : CoreEq b c) : CoreEq a c := by
  obtain ⟨x1, x2, x3, x4, x5, x6, x7, x8, x9, x10, x11, x12, x13, x14⟩ := h1
  obtain ⟨y1, y2, y3, y4, y5, y6, y7, y8, y9, y10, y11, y12, y13, y14⟩ := h2
  exact ⟨x1.trans y1, x2.trans y2, x3.trans y3, x4.trans y4, x5.trans y5, x6.trans y6,
    x7.trans y7, x8.trans y8, x9.trans y9, x10.trans y10, x11.trans y11, x12.trans y12,
    x13.trans y13, x14.trans y14⟩

lemma restoreRootMinHeight_coreEq (e : Elem) : CoreEq (restoreRootMinHeight e) e := by
  unfold restoreRootMinHeight
  rcases e.ds.oldMinHeight <;> exact coreEq_refl _

lemma rootAdjust_coreEq (docElId : Nat) (bodyId : Option Nat) (e : Elem) :
    CoreEq (rootAdjust docElId bodyId e) e := by
  unfold rootAdjust
  rcases bodyId with _ | b
  · dsimp only
    by_cases h : e.eid = docElId
    · rw [if_pos h]; exact restoreRootMinHeight_coreEq e
    · rw [if_neg h]; exact coreEq_refl e
  · dsimp only
    by_cases h : e.eid = docElId
    · rw [if_pos h]
      by_cases h2 : (restoreRootMinHeight e).eid = b
      · rw [if_pos h2]
        exact coreEq_trans (restoreRootMinHeight_coreEq _) (restoreRootMinHeight_coreEq e)
      · rw [if_neg h2]
        exact restoreRootMinHeight_coreEq e
    · rw [if_neg h]
      by_cases h2 : e.eid = b
      · rw [if_pos h2]
        exact restoreRootMinHeight_coreEq e
      · rw [if_neg h2]
        exact coreEq_refl e

lemma restoreRepositioned_eid (e : Elem) : (restoreRepositioned e).eid = e.eid := by
  unfold restoreRepositioned
  split_ifs <;> rfl

lemma restoreExpanded_eid (e : Elem) : (restoreExpanded e).eid = e.eid := by
  unfold restoreExpanded
  split_ifs with h
  · rcases e.ds.oldBottom <;> rfl
  · rfl

lemma restoreElem_eid (docElId : Nat) (bodyId : Option Nat) (e : Elem) :
    (restoreElem docElId bodyId e).eid = e.eid := by
  rw [restoreElem_eq, restoreExpanded_eid, restoreRepositioned_eid]
  exact (rootAdjust_coreEq docElId bodyId e).1

/-- Computed form of the repositioned pass when the marker is present. -/
lemma restoreRepositioned_pos {e : Elem} (h : e.repositionedMark = true) :
    (restoreRepositioned e).style.position = e.ds.oldPosition.getD "" := by
  unfold restoreRepositioned
  rw [if_pos h]

/-- Computed form of the expanded pass when the marker is present. -/
lemma restoreExpanded_pos {e : Elem} (h : e.expandedMark = true) :
    (restoreExpanded e).style.overflow = e.ds.oldOverflow.getD "" ∧
    (restoreExpanded e).style.height = e.ds.oldHeight.getD "" ∧
    (restoreExpanded e).style.maxHeight = e.ds.oldMaxHeight.getD "" ∧
    (restoreExpanded e).style.bottom =
      (match e.ds.oldBottom with | some b => b | none => e.style.bottom) := by
  unfold restoreExpanded
  rw [if_pos h]
  rcases e.ds.oldBottom <;> exact ⟨rfl, rfl, rfl, rfl⟩

/-- An element satisfying the saved-state invariant is restored to its
pre-measurement values: the four expansion properties when it carries the
expansion marker, the position when it carries the repositioning marker;
the scroll offset is never touched. -/
lemma restoreElem_correct (docElId : Nat) (bodyId : Option Nat) {e0 e : Elem}
    (hS : ElemSaved e0 e) :
    (e.expandedMark = true →
      (restoreElem docElId bodyId e).style.overflow = e0.style.overflow ∧
      (restoreElem docElId bodyId e).style.height = e0.style.height ∧
      (restoreElem docElId bodyId e).style.maxHeight = e0.style.maxHeight ∧
      (restoreElem docElId bodyId e).style.bottom = e0.style.bottom) ∧
    (e.repositionedMark = true →
      (restoreElem docElId bodyId e).style.position = e0.style.position) ∧
    (restoreElem docElId bodyId e).scrollTop = e.scrollTop := by
  obtain ⟨heid, hpar, hcomp, hprops, hexpS, hrepS⟩ := hS
  have Povf := hprops SProp.ovf
  have Phgt := hprops SProp.hgt
  have Pmxh := hprops SProp.mxh
  have Pbtm := hprops SProp.btm
  have Ppos := hprops SProp.pos
  simp only [dsProp, styleProp] at Povf Phgt Pmxh Pbtm Ppos hexpS hrepS
  rw [restoreElem_eq]
  set e2 := rootAdjust docElId bodyId e with he2
  have hc2 : CoreEq e2 e := rootAdjust_coreEq docElId bodyId e
  obtain ⟨c1, c2, c3, c4, c5, c6, c7, c8, c9, c10, c11, c12, c13, c14⟩ := hc2
  set e3 := restoreRepositioned e2 with he3
  refine ⟨?_, ?_, ?_⟩
  · -- expansion restore
    intro hmk
    have hmk3 : e3.expandedMark = true := by
      rw [he3, (restoreRepositioned_keeps e2).2.2.2.2.2.2.2.2.2.2.1, c12, hmk]
    obtain ⟨hov, hhg, hmx, hbt⟩ := restoreExpanded_pos hmk3
    obtain ⟨hso, hsh, hsm⟩ := hexpS hmk
    have hdso : e3.ds.oldOverflow = e.ds.oldOverflow := by
      rw [he3, (restoreRepositioned_keeps e2).2.2.2.2.2.1, c7]
    have hdsh : e3.ds.oldHeight = e.ds.oldHeight := by
      rw [he3, (restoreRepositioned_keeps e2).2.2.2.2.2.2.1, c8]
    have hdsm : e3.ds.oldMaxHeight = e.ds.oldMaxHeight := by
      rw [he3, (restoreRepositioned_keeps e2).2.2.2.2.2.2.2.1, c9]
    have hdsb : e3.ds.oldBottom = e.ds.oldBottom := by
      rw [he3, (restoreRepositioned_keeps e2).2.2.2.2.2.2.2.2.1, c10]
    refine ⟨?_, ?_, ?_, ?_⟩
    · rw [hov, hdso]
      rcases hv : e.ds.oldOverflow with _ | v
      · rw [hv] at hso; cases hso
      · simp [Povf.2 v hv]
    · rw [hhg, hdsh]
      rcases hv : e.ds.oldHeight with _ | v
      · rw [hv] at hsh; cases hsh
      · simp [Phgt.2 v hv]
    · rw [hmx, hdsm]
      rcases hv : e.ds.oldMaxHeight with _ | v
      · rw [hv] at hsm; cases hsm
      · simp [Pmxh.2 v hv]
    · rw [hbt, hdsb]
      rcases hv : e.ds.oldBottom with _ | v
      · -- never saved: the inline bottom is still the original
        have hb3 : e3.style.bottom = e.style.bottom := by
          rw [he3, (restoreRepositioned_keeps e2).2.2.2.1, c5]
        rw [hb3]
        exact Pbtm.1 hv
      · exact Pbtm.2 v hv
  · -- reposition restore
    intro hmk
    have hmk2 : e2.repositionedMark = true := by rw [c13, hmk]
    rw [(restoreExpanded_keeps e3).1, he3, restoreRepositioned_pos hmk2, c11]
    rcases hv : e.ds.oldPosition with _ | v
    · rw [hv] at hrepS
      cases hrepS hmk
    · simp [Ppos.2 v hv]
  · -- the scroll offset is untouched
    rw [(restoreExpanded_keeps e3).2.2.2.2.2, he3,
      (restoreRepositioned_keeps e2).2.2.2.2.2.2.2.2.2.2.2, c14]

/-! ### Idempotence of the restore and no-op on a clean document -/

lemma restoreRootMinHeight_of_none {e : Elem} (h : e.ds.oldMinHeight = none) :
    restoreRootMinHeight e = e := by
  unfold restoreRootMinHeight
  rw [h]

lemma restoreRepositioned_of_false {e : Elem} (h : e.repositionedMark = false) :
    restoreRepositioned e = e := by
  unfold restoreRepositioned
  rw [h]
  simp

lemma restoreExpanded_of_false {e : Elem} (h : e.expandedMark = false) :
    restoreExpanded e = e := by
  unfold restoreExpanded
  rw [h]
  simp

lemma restoreRootMinHeight_minHeight (e : Elem) :
    (restoreRootMinHeight e).ds.oldMinHeight = none := by
  unfold restoreRootMinHeight
  rcases h : e.ds.oldMinHeight <;> simp [h]

lemma rootAdjust_of_none {docElId : Nat} {bodyId : Option Nat} {e : Elem}
    (h : e.ds.oldMinHeight = none) : rootAdjust docElId bodyId e = e := by
  unfold rootAdjust
  have hr := restoreRootMinHeight_of_none h
  rcases bodyId with _ | b <;> dsimp only
  · by_cases h1 : e.eid = docElId <;> simp [h1, hr]
  · by_cases h1 : e.eid = docElId <;> by_cases h2 : e.eid = b <;> simp [h1, h2, hr]

lemma restoreElem_minHeight_root (docElId : Nat) (bodyId : Option Nat) (e : Elem)
    (h : e.eid = docElId ∨ bodyId = some e.eid) :
    (restoreElem docElId bodyId e).ds.oldMinHeight = none := by
  rw [restoreElem_eq, (restoreExpanded_keeps _).2.2.2.1,
    (restoreRepositioned_keeps _).2.2.2.2.2.2.2.2.2.1]
  unfold rootAdjust
  rcases hb : bodyId with _ | b <;> dsimp only
  · rcases h with h | h
    · rw [if_pos h]
      exact restoreRootMinHeight_minHeight e
    · rw [hb] at h
      cases h
  · by_cases h1 : e.eid = docElId
    · rw [if_pos h1]
      by_cases h2 : (restoreRootMinHeight e).eid = b
      · rw [if_pos h2]
        exact restoreRootMinHeight_minHeight _
      · rw [if_neg h2]
        exact restoreRootMinHeight_minHeight e
    · rw [if_neg h1]
      rcases h with h | h
      · exact absurd h h1
      · rw [hb] at h
        have h2 : e.eid = b := (Option.some.inj h).symm
        rw [if_pos h2]
        exact restoreRootMinHeight_minHeight e

lemma restoreElem_idem (docElId : Nat) (bodyId : Option Nat) (e : Elem) :
    restoreElem docElId bodyId (restoreElem docElId bodyId e) =
      restoreElem docElId bodyId e := by
  set er := restoreElem docElId bodyId e with her
  obtain ⟨hme, hmr⟩ := restoreElem_marks docElId bodyId e
  rw [← her] at hme hmr
  have hroot : rootAdjust docElId bodyId er = er := by
    by_cases h : er.eid = docElId ∨ bodyId = some er.eid
    · refine rootAdjust_of_none ?_
      rw [her]
      refine restoreElem_minHeight_root docElId bodyId e ?_
      rw [her, restoreElem_eid] at h
      exact h
    · push_neg at h
      unfold rootAdjust
      rcases hb : bodyId with _ | b <;> dsimp only
      · rw [if_neg h.1]
      · rw [if_neg h.1, if_neg (fun hc => h.2 (by rw [hb, hc]))]
  rw [restoreElem_eq, hroot, restoreRepositioned_of_false hmr,
    restoreExpanded_of_false hme]

lemma restore_rest (d : Doc) :
    (restoreExpandedContainers d).postDocScrollHeight = d.postDocScrollHeight ∧
    (restoreExpandedContainers d).postBodyScrollHeight = d.postBodyScrollHeight ∧
    (restoreExpandedContainers d).postRectBottomCeil = d.postRectBottomCeil ∧
    (restoreExpandedContainers d).postDocScrollWidth = d.postDocScrollWidth ∧
    (restoreExpandedContainers d).postBodyScrollWidth = d.postBodyScrollWidth := by
  unfold restoreExpandedContainers
  rcases d.bodyId <;> exact ⟨rfl, rfl, rfl, rfl, rfl⟩

/-- Calling the restore a second time changes nothing at all. -/
lemma restore_idem (d : Doc) :
    restoreExpandedContainers (restoreExpandedContainers d) =
      restoreExpandedContainers d := by
  have hs := restore_scalars d
  have hs2 := restore_scalars (restoreExpandedContainers d)
  have hr := restore_rest (restoreExpandedContainers d)
  refine Doc.ext ?_ ?_ ?_ ?_ ?_ ?_ ?_ ?_ ?_
  · rw [restore_els, restore_els, hs.1, hs.2.1, List.map_map]
    exact List.map_congr_left (fun e _ => restoreElem_idem _ _ e)
  · rw [hs2.1, hs.1]
  · rw [hs2.2.1, hs.2.1]
  · exact hr.1
  · exact hr.2.1
  · exact hr.2.2.1
  · exact hr.2.2.2.1
  · exact hr.2.2.2.2
  · rw [hs2.2.2, hs.2.2]

/-- On a clean document (the measurement never ran) the restore is a
complete no-op. -/
lemma restore_clean_noop (d : Doc) (hclean : CleanDoc d) :
    restoreExpandedContainers d = d := by
  have hs := restore_scalars d
  have hr := restore_rest d
  refine Doc.ext ?_ ?_ ?_ ?_ ?_ ?_ ?_ ?_ ?_
  · rw [restore_els]
    have : d.els.map (restoreElem d.docElId d.bodyId) = d.els.map id := by
      refine List.map_congr_left (fun e he => ?_)
      obtain ⟨hexp, hrep, hds⟩ := hclean.1 e he
      rw [id_eq, restoreElem_eq,
        rootAdjust_of_none (by rw [hds]),
        restoreRepositioned_of_false hrep, restoreExpanded_of_false hexp]
    rw [this, List.map_id]
  · exact hs.1
  · exact hs.2.1
  · exact hr.1
  · exact hr.2.1
  · exact hr.2.2.1
  · exact hr.2.2.2.1
  · exact hr.2.2.2.2
  · rw [hs.2.2, hclean.2]

/-! ### Claim C1 -/

lemma measurePageDimensions_snd (d : Doc) :
    (measurePageDimensions d).2 = applySteps d (measureSteps d) := by
  unfold measurePageDimensions measureSteps
  rcases d.selectedContainer <;> rfl

/-- C1: in any state reachable by a full or partial `measurePageDimensions`
run on a clean well-formed document, `restoreExpandedContainers` removes
the scrollbar-hiding style element, removes both marker classes from every
element, restores every element carrying the expansion marker to its
pre-measurement inline overflow/height/max-height/bottom values and every
element carrying the repositioning marker to its pre-measurement inline
position value, is a no-op when run a second time, and is a no-op on a
document on which the measurement never ran.  (All functions are total, so
no call can throw.) -/
theorem measure_restore_roundtrip_c1 (d : Doc) (hwf : DocWF d)
    (hclean : CleanDoc d) (k : Nat) :
    restoreExpandedContainers d = d ∧
    (restoreExpandedContainers
      (applySteps d ((measureSteps d).take k))).styleElPresent = false ∧
    (∀ e ∈ (restoreExpandedContainers (applySteps d ((measureSteps d).take k))).els,
      e.expandedMark = false ∧ e.repositionedMark = false) ∧
    restoreExpandedContainers
        (restoreExpandedContainers (applySteps d ((measureSteps d).take k))) =
      restoreExpandedContainers (applySteps d ((measureSteps d).take k)) ∧
    List.Forall₂ (fun e0 p =>
        ((p.1 : Elem).expandedMark = true →
          (p.2 : Elem).style.overflow = e0.style.overflow ∧
          p.2.style.height = e0.style.height ∧
          p.2.style.maxHeight = e0.style.maxHeight ∧
          p.2.style.bottom = e0.style.bottom) ∧
        (p.1.repositionedMark = true → p.2.style.position = e0.style.position))
      d.els
      ((applySteps d ((measureSteps d).take k)).els.zip
        (restoreExpandedContainers (applySteps d ((measureSteps d).take k))).els) := by
  have hsd : (applySteps d ((measureSteps d).take k)).docElId = d.docElId :=
    applySteps_docElId d _
  have hsb : (applySteps d ((measureSteps d).take k)).bodyId = d.bodyId :=
    applySteps_bodyId d _
  refine ⟨restore_clean_noop d hclean, (restore_scalars _).2.2, ?_, restore_idem _, ?_⟩
  · intro e he
    rw [restore_els] at he
    obtain ⟨x, _, rfl⟩ := List.mem_map.1 he
    exact restoreElem_marks _ _ x
  · rw [restore_els, hsd, hsb, applySteps_els, List.map_map, List.zip_map']
    refine List.forall₂_map_right_iff.mpr (List.forall₂_same.mpr ?_)
    intro e0 he0
    dsimp only [Function.comp]
    rcases hsel : d.selectedContainer with _ | c
    · -- no container was selected: the step list is empty
      have hnil : measureSteps d = [] := by
        unfold measureSteps
        rw [hsel]
      obtain ⟨hexp, hrep, _⟩ := hclean.1 e0 he0
      rw [hnil]
      constructor
      · intro hmk
        simp only [List.take_nil, List.filter_nil, elemApply_nil] at hmk
        rw [hexp] at hmk
        cases hmk
      · intro hmk
        simp only [List.take_nil, List.filter_nil, elemApply_nil] at hmk
        rw [hrep] at hmk
        cases hmk
    · have hS := measure_elemSaved hwf hclean hsel he0 k
      have hcor := restoreElem_correct d.docElId d.bodyId hS
      exact ⟨fun hmk => hcor.1 hmk, fun hmk => hcor.2.1 hmk⟩

def demoRoot : Elem :=
  { eid := 0, parent := none, scrollHeight := 800, clientHeight := 800
  , scrollWidth := 1200
  , computed := { overflowX := "visible", overflowY := "visible", position := "static" } }

def demoBody : Elem :=
  { eid := 1, parent := some 0, scrollHeight := 800, clientHeight := 800
  , scrollWidth := 1200
  , computed := { overflowX := "hidden", overflowY := "hidden", position := "static" }
  , style := { overflow := "hidden" } }

def demoScroller : Elem :=
  { eid := 2, parent := some 1, scrollHeight := 5000, clientHeight := 800
  , scrollWidth := 1200
  , computed := { overflowX := "auto", overflowY := "auto", position := "static" }
  , scrollTop := 500
  , style := { overflow := "auto", height := "100%" } }

def demoFixed : Elem :=
  { eid := 3, parent := some 1, scrollHeight := 0, clientHeight := 0
  , scrollWidth := 300
  , computed := { overflowX := "visible", overflowY := "visible", position := "fixed" }
  , style := { position := "fixed" } }

/-- A small page used to evaluate the DOM theorems: a root, a body with
hidden overflow, a scrolled nested scroll container and a fixed side
element. -/
def demoPage : Doc :=
  { els := [demoRoot, demoBody, demoScroller, demoFixed]
  , docElId := 0, bodyId := some 1
  , postDocScrollHeight := 5000, postBodyScrollHeight := 5000
  , postRectBottomCeil := 5000
  , postDocScrollWidth := 1200, postBodyScrollWidth := 1200 }

/-- Witness for `measure_restore_roundtrip_c1` at `demoPage` after a full
run (64 exceeds the length of the step list). -/
theorem measure_restore_roundtrip_c1_witness :
    restoreExpandedContainers demoPage = demoPage ∧
    (restoreExpandedContainers
      (applySteps demoPage ((measureSteps demoPage).take 64))).styleElPresent = false ∧
    restoreExpandedContainers
        (restoreExpandedContainers
          (applySteps demoPage ((measureSteps demoPage).take 64))) =
      restoreExpandedContainers (applySteps demoPage ((measureSteps demoPage).take 64)) := by
  have h := measure_restore_roundtrip_c1 demoPage
    (by unfold DocWF; decide) (by unfold CleanDoc; decide) 64
  exact ⟨h.1, h.2.1, h.2.2.2.1⟩

/-! ### Forward characterization: the selection scan -/

lemma scan_fold_inv (l : List Elem) :
    ∀ (w0 h0 : Int) (o : Option Elem),
      (l.foldl scanStep (w0, h0, o) = (w0, h0, o) ∨
        ∃ c, (l.foldl scanStep (w0, h0, o)).2.2 = some c ∧ c ∈ l ∧
          isScrollCandidate c = true ∧
          (l.foldl scanStep (w0, h0, o)).2.1 = c.scrollHeight ∧
          h0 < c.scrollHeight) ∧
      (∀ e ∈ l, isScrollCandidate e = true →
        e.scrollHeight ≤ (l.foldl scanStep (w0, h0, o)).2.1) ∧
      h0 ≤ (l.foldl scanStep (w0, h0, o)).2.1 := by
  induction l with
  | nil =>
    intro w0 h0 o
    exact ⟨Or.inl rfl, fun e he => absurd he (List.not_mem_nil e), le_refl _⟩
  | cons a t ih =>
    intro w0 h0 o
    rw [List.foldl_cons]
    by_cases hcond : (isScrollCandidate a && decide (h0 < a.scrollHeight)) = true
    · have hstep : scanStep (w0, h0, o) a = (max w0 a.scrollWidth, a.scrollHeight, some a) := by
        unfold scanStep
        exact if_pos hcond
      obtain ⟨hca, hlt⟩ : isScrollCandidate a = true ∧ h0 < a.scrollHeight := by
        simpa using hcond
      obtain ⟨IH1, IH2, IH3⟩ := ih (max w0 a.scrollWidth) a.scrollHeight (some a)
      rw [hstep]
      refine ⟨?_, ?_, le_trans (le_of_lt hlt) IH3⟩
      · rcases IH1 with heq | ⟨c, hc1, hc2, hc3, hc4, hc5⟩
        · exact Or.inr ⟨a, by rw [heq], List.mem_cons_self a t, hca, by rw [heq], hlt⟩
        · exact Or.inr ⟨c, hc1, List.mem_cons_of_mem a hc2, hc3, hc4, lt_trans hlt hc5⟩
      · intro e he hce
        rcases List.mem_cons.1 he with rfl | het
        · exact IH3
        · exact IH2 e het hce
    · have hstep : scanStep (w0, h0, o) a = (w0, h0, o) := by
        unfold scanStep
        exact if_neg hcond
      obtain ⟨IH1, IH2, IH3⟩ := ih w0 h0 o
      rw [hstep]
      refine ⟨?_, ?_, IH3⟩
      · rcases IH1 with heq | ⟨c, hc1, hc2, hc3, hc4, hc5⟩
        · exact Or.inl heq
        · exact Or.inr ⟨c, hc1, List.mem_cons_of_mem a hc2, hc3, hc4, hc5⟩
      · intro e he hce
        rcases List.mem_cons.1 he with rfl | het
        · have hnl : ¬ (h0 < e.scrollHeight) := by
            intro hlt
            exact hcond (by rw [hce]; simp [hlt])
          exact le_trans (not_lt.1 hnl) IH3
        · exact IH2 e het hce

/-- When the scan selects nothing, the returned dimensions are the baseline
and no candidate exceeds the baseline height. -/
lemma scan_none {d : Doc} (h : d.selectedContainer = none) :
    d.scan = (d.baselineWidth, d.baselineHeight, none) ∧
    ∀ e ∈ d.els, isScrollCandidate e = true → e.scrollHeight ≤ d.baselineHeight := by
  obtain ⟨h1, h2, _⟩ := scan_fold_inv d.els d.baselineWidth d.baselineHeight none
  unfold Doc.selectedContainer Doc.scan at h
  rcases h1 with heq | ⟨c, hc1, _⟩
  · refine ⟨heq, fun e he hce => ?_⟩
    have h2' := h2 e he hce
    rw [heq] at h2'
    exact h2'
  · rw [hc1] at h
    cases h

/-- When the scan selects a container, it is a candidate that strictly
exceeds the baseline height, and no candidate on the page has a larger
scroll height. -/
lemma scan_some {d : Doc} {c : Elem} (h : d.selectedContainer = some c) :
    c ∈ d.els ∧ isScrollCandidate c = true ∧
    d.scan.2.1 = c.scrollHeight ∧ d.baselineHeight < c.scrollHeight ∧
    ∀ e ∈ d.els, isScrollCandidate e = true → e.scrollHeight ≤ c.scrollHeight := by
  obtain ⟨h1, h2, _⟩ := scan_fold_inv d.els d.baselineWidth d.baselineHeight none
  unfold Doc.selectedContainer Doc.scan at h
  rcases h1 with heq | ⟨c', hc1, hmem, hcand, hh, hlt⟩
  · rw [heq] at h
    cases h
  · rw [hc1] at h
    obtain rfl := Option.some.inj h
    refine ⟨hmem, hcand, hh, hlt, fun e he hce => ?_⟩
    have h2' := h2 e he hce
    rw [hh] at h2'
    exact h2'

/-! ### Forward characterization: per-field folds over a step list -/

lemma elemApply_eid : ∀ (L : List MStep) (e : Elem), (elemApply e L).eid = e.eid := by
  intro L
  induction L with
  | nil => intro e; rfl
  | cons st t ih =>
    intro e
    rw [elemApply_cons, ih, stepElemFn_eid]

lemma elemApply_expandedMark : ∀ (L : List MStep) (e : Elem),
    (elemApply e L).expandedMark = (e.expandedMark || L.any MStep.isExpandMark) := by
  intro L
  induction L with
  | nil => intro e; simp [elemApply_nil]
  | cons st t ih =>
    intro e
    rw [elemApply_cons, ih, expandedMark_step, List.any_cons, Bool.or_assoc]

lemma elemApply_repositionedMark : ∀ (L : List MStep) (e : Elem),
    (elemApply e L).repositionedMark = (e.repositionedMark || L.any MStep.isReposMark) := by
  intro L
  induction L with
  | nil => intro e; simp [elemApply_nil]
  | cons st t ih =>
    intro e
    rw [elemApply_cons, ih, repositionedMark_step, List.any_cons, Bool.or_assoc]

lemma elemApply_scrollTop : ∀ (L : List MStep) (e : Elem),
    (elemApply e L).scrollTop =
      if L.any MStep.isScrollReset then 0 else e.scrollTop := by
  intro L
  induction L with
  | nil => intro e; simp [elemApply_nil]
  | cons st t ih =>
    intro e
    rw [elemApply_cons, ih, scrollTop_step, List.any_cons]
    by_cases h : st.isScrollReset = true
    · simp [h]
    · simp [h]

/-- Does the step write this inline property? -/
def MStep.writesProp (st : MStep) (k : SProp) : Bool :=
  match st.writeProp with
  | some kv => kv.1 == k
  | none => false

/-- Does the step save this property to the dataset? -/
def MStep.savesProp (st : MStep) (k : SProp) : Bool :=
  match st.saveProp with
  | some ks => ks == k
  | none => false

/-- Style-side frame: a step list with no write to `k` keeps the inline
value of `k`. -/
lemma elemApply_style_frame : ∀ (L : List MStep) (e : Elem) (k : SProp),
    L.any (fun st => st.writesProp k) = false →
    styleProp (elemApply e L) k = styleProp e k := by
  intro L
  induction L with
  | nil => intro e k _; rfl
  | cons st t ih =>
    intro e k h
    rw [List.any_cons, Bool.or_eq_false_iff] at h
    rw [elemApply_cons, ih (stepElemFn st e) k h.2, styleProp_step]
    have h1 := h.1
    rcases hw : st.writeProp with _ | kv
    · simp only [hw]
    · simp only [MStep.writesProp, hw] at h1
      simp only [hw]
      rw [if_neg (by simpa using h1)]

/-- Dataset-side frame: a step list with no save of `k` keeps the dataset
value of `k`. -/
lemma elemApply_ds_frame : ∀ (L : List MStep) (e : Elem) (k : SProp),
    L.any (fun st => st.savesProp k) = false →
    dsProp (elemApply e L) k = dsProp e k := by
  intro L
  induction L with
  | nil => intro e k _; rfl
  | cons st t ih =>
    intro e k h
    rw [List.any_cons, Bool.or_eq_false_iff] at h
    rw [elemApply_cons, ih (stepElemFn st e) k h.2, dsProp_step]
    have h1 := h.1
    rcases hs : st.saveProp with _ | ks
    · simp only [hs]
    · simp only [MStep.savesProp, hs] at h1
      simp only [hs]
      rw [if_neg (by simpa using h1)]

/-! ### What each block of steps touches -/

lemma ite_any_false {p : Prop} [Decidable p] {L : List MStep} {f : MStep → Bool}
    (h : L.any f = false) : (if p then L else []).any f = false := by
  split_ifs with hp
  · exact h
  · rfl

lemma containerSteps_writes_pos (c : Elem) :
    (containerSteps c).any (fun st => st.writesProp SProp.pos) = false := by
  simp only [containerSteps, List.any_cons, List.any_nil, MStep.writesProp, MStep.writeProp]
  decide

lemma containerSteps_saves_pos (c : Elem) :
    (containerSteps c).any (fun st => st.savesProp SProp.pos) = false := by
  simp only [containerSteps, List.any_cons, List.any_nil, MStep.savesProp, MStep.saveProp]
  decide

lemma ancestorSteps_writes_pos (a : Elem) :
    (ancestorSteps a).any (fun st => st.writesProp SProp.pos) = false := by
  unfold ancestorSteps
  split_ifs <;>
    simp only [List.any_append, List.any_cons, List.any_nil, MStep.writesProp,
      MStep.writeProp] <;>
    decide

lemma ancestorSteps_saves_pos (a : Elem) :
    (ancestorSteps a).any (fun st => st.savesProp SProp.pos) = false := by
  unfold ancestorSteps
  split_ifs <;>
    simp only [List.any_append, List.any_cons, List.any_nil, MStep.savesProp,
      MStep.saveProp] <;>
    decide

lemma repositionSteps_writes_ne (e : Elem) (k : SProp) (hk : k ≠ SProp.pos) :
    (repositionSteps e).any (fun st => st.writesProp k) = false := by
  unfold repositionSteps
  split_ifs <;>
    simp [MStep.writesProp, MStep.writeProp, beq_eq_false_iff_ne, Ne.symm hk]

lemma repositionSteps_saves_ne (e : Elem) (k : SProp) (hk : k ≠ SProp.pos) :
    (repositionSteps e).any (fun st => st.savesProp k) = false := by
  unfold repositionSteps
  split_ifs <;>
    simp [MStep.savesProp, MStep.saveProp, beq_eq_false_iff_ne, Ne.symm hk]

lemma bodySteps_writes_ne (d : Doc) (c : Elem) (k : SProp) (hk : k ≠ SProp.mnh) :
    (bodySteps d c).any (fun st => st.writesProp k) = false := by
  unfold bodySteps
  rcases hb : d.body with _ | b
  · simp
  · dsimp only
    split_ifs <;>
      simp [MStep.writesProp, MStep.writeProp, beq_eq_false_iff_ne, Ne.symm hk]

lemma bodySteps_saves_pos (d : Doc) (c : Elem) :
    (bodySteps d c).any (fun st => st.savesProp SProp.pos) = false := by
  unfold bodySteps
  rcases hb : d.body with _ | b
  · simp
  · dsimp only
    split_ifs <;>
      simp only [List.any_append, List.any_cons, List.any_nil, MStep.savesProp,
        MStep.saveProp] <;>
      decide

lemma docElSteps_writes_ne (d : Doc) (k : SProp) (hk : k ≠ SProp.mnh) :
    (docElSteps d).any (fun st => st.writesProp k) = false := by
  unfold docElSteps
  rcases hr : d.docEl with _ | r
  · simp
  · simp [MStep.writesProp, MStep.writeProp, beq_eq_false_iff_ne, Ne.symm hk]

lemma docElSteps_saves_pos (d : Doc) :
    (docElSteps d).any (fun st => st.savesProp SProp.pos) = false := by
  unfold docElSteps
  rcases hr : d.docEl with _ | r
  · simp
  · simp only [List.any_cons, List.any_nil, MStep.savesProp, MStep.saveProp]
    decide

lemma containerSteps_scrollReset (c : Elem) :
    (containerSteps c).any MStep.isScrollReset = true := by
  simp [containerSteps, MStep.isScrollReset]

lemma containerSteps_expand (c : Elem) :
    (containerSteps c).any MStep.isExpandMark = true := by
  simp [containerSteps, MStep.isExpandMark]

lemma repositionSteps_expand (e : Elem) :
    (repositionSteps e).any MStep.isExpandMark = false := by
  unfold repositionSteps
  split_ifs <;> simp [MStep.isExpandMark]

lemma docElSteps_expand (d : Doc) :
    (docElSteps d).any MStep.isExpandMark = false := by
  unfold docElSteps
  rcases hr : d.docEl with _ | r <;> simp [MStep.isExpandMark]

lemma ancestorSteps_expand (a : Elem) :
    (ancestorSteps a).any MStep.isExpandMark =
      (a.computed.overflow == "hidden" || a.computed.overflowY == "hidden") := by
  unfold ancestorSteps
  by_cases h : (a.computed.overflow == "hidden" || a.computed.overflowY == "hidden") = true
  · rw [if_pos h, h]
    simp [List.any_append, MStep.isExpandMark]
  · rw [if_neg h]
    rw [Bool.not_eq_true] at h
    rw [h]
    rfl

/-- Members of the ancestor chain are distinct from the container. -/
lemma chain_ne_container {d : Doc} (hwf : DocWF d) {c : Elem}
    (hc : d.selectedContainer = some c) {a : Elem}
    (ha : a ∈ d.ancestorChain c) : a.eid ≠ c.eid := by
  have h := docWF_chain hwf hc
  rw [List.map_cons, List.nodup_cons] at h
  intro he
  exact h.1 (he ▸ List.mem_map_of_mem Elem.eid ha)

lemma container_not_mem_chain {d : Doc} (hwf : DocWF d) {c : Elem}
    (hc : d.selectedContainer = some c) : c ∉ d.ancestorChain c :=
  fun hmem => chain_ne_container hwf hc hmem rfl

/-! ### Claim C3 -/

def demoP2Root : Elem :=
  { eid := 0, parent := none, scrollHeight := 600, clientHeight := 600
  , scrollWidth := 1000
  , computed := { overflowX := "visible", overflowY := "visible", position := "static" } }

def demoP2Body : Elem :=
  { eid := 1, parent := some 0, scrollHeight := 600, clientHeight := 600
  , scrollWidth := 1000
  , computed := { overflowX := "visible", overflowY := "visible", position := "static" } }

def demoP2Scroller : Elem :=
  { eid := 2, parent := some 1, scrollHeight := 4000, clientHeight := 500
  , scrollWidth := 900
  , computed := { overflowX := "auto", overflowY := "auto", position := "static" }
  , scrollTop := 120
  , style := { overflow := "auto" } }

/-- A page with a single nested scroll container directly inside a body
that has no hidden overflow. -/
def demoPage2 : Doc :=
  { els := [demoP2Root, demoP2Body, demoP2Scroller]
  , docElId := 0, bodyId := some 1
  , postDocScrollHeight := 4000, postBodyScrollHeight := 4000
  , postRectBottomCeil := 4000
  , postDocScrollWidth := 1000, postBodyScrollWidth := 1000 }

/-- C3 is refuted on this point: `measurePageDimensions` does NOT mark at
most one element as expanded.  On `demoPage2` exactly one container (the
scroller, id 2) is selected, yet two elements end up carrying the
expansion marker: the body (id 1) — marked by the body/minHeight block of
src/lib.js lines 144-152 even though it is not a scroll container — and
the selected container itself. -/
theorem expand_single_counterexample_c3 :
    demoPage2.selectedContainer = some demoP2Scroller ∧
    ((measurePageDimensions demoPage2).2.els.filter
        (fun e => e.expandedMark)).map Elem.eid = [1, 2] := by
  constructor
  · decide
  · decide

/-- C3 (amended): when no container is selected the function returns the
baseline dimensions and mutates nothing, and no scroll candidate exceeds
the baseline height; when a container is selected it is a candidate whose
scroll height strictly exceeds the baseline height, no candidate has a
larger scroll height, the returned height is at least the container's
scroll height whenever the post-expansion document scroll height is, and
every element marked expanded is the container, one of its ancestors on
the walked chain, or the body (so not "at most one", but this bounded
set). -/
theorem container_selection_c3 (d : Doc) (hwf : DocWF d) (hclean : CleanDoc d) :
    (d.selectedContainer = none →
      measurePageDimensions d = ((d.baselineWidth, d.baselineHeight), d) ∧
      ∀ e ∈ d.els, isScrollCandidate e = true → e.scrollHeight ≤ d.baselineHeight) ∧
    (∀ c, d.selectedContainer = some c →
      c ∈ d.els ∧ isScrollCandidate c = true ∧
      d.baselineHeight < c.scrollHeight ∧
      (∀ e ∈ d.els, isScrollCandidate e = true → e.scrollHeight ≤ c.scrollHeight) ∧
      (c.scrollHeight ≤ d.postDocScrollHeight →
        c.scrollHeight ≤ (measurePageDimensions d).1.2) ∧
      (∀ e ∈ d.els, ∀ e' ∈ (measurePageDimensions d).2.els, e'.eid = e.eid →
        e'.expandedMark = true →
        e.eid = c.eid ∨ e ∈ d.ancestorChain c ∨ d.body = some e)) := by
  constructor
  · intro hn
    obtain ⟨hscan, hbound⟩ := scan_none hn
    constructor
    · unfold measurePageDimensions
      simp only [hn]
      rw [hscan]
    · exact hbound
  · intro c hc
    obtain ⟨hmem, hcand, hh, hlt, hmax⟩ := scan_some hc
    refine ⟨hmem, hcand, hlt, hmax, ?_, ?_⟩
    · intro hle
      have hval : (measurePageDimensions d).1.2 = d.remeasuredHeight := by
        unfold measurePageDimensions
        simp only [hc]
      rw [hval]
      unfold Doc.remeasuredHeight
      exact le_trans hle (le_trans (le_max_left _ _) (le_max_left _ _))
    · intro e he e' he' heid hmk
      by_contra hcon
      push_neg at hcon
      obtain ⟨h1, h2, h3⟩ := hcon
      rw [measurePageDimensions_snd, applySteps_els] at he'
      obtain ⟨x, hx, rfl⟩ := List.mem_map.1 he'
      obtain rfl : x = e := eid_inj hwf.1 hx he (by rw [← heid, elemApply_eid])
      rw [elemApply_expandedMark] at hmk
      rw [(hclean.1 x hx).1, Bool.false_or] at hmk
      rw [measureSteps_filter hwf hc hx] at hmk
      rw [List.any_append, List.any_append, List.any_append, List.any_append] at hmk
      rw [if_neg (fun hcc => h1 hcc.symm), if_neg h2, if_neg h3,
        repositionSteps_expand, ite_any_false (docElSteps_expand d)] at hmk
      simp at hmk

/-- Witness for `container_selection_c3`: on `demoPage2` the selected
container is the scroller, a candidate strictly above the baseline
height. -/
theorem container_selection_c3_witness :
    demoPage2.selectedContainer = some demoP2Scroller ∧
    demoP2Scroller ∈ demoPage2.els ∧
    isScrollCandidate demoP2Scroller = true ∧
    demoPage2.baselineHeight < demoP2Scroller.scrollHeight := by
  have h := (container_selection_c3 demoPage2 (by unfold DocWF; decide)
    (by unfold CleanDoc; decide)).2 demoP2Scroller (by decide)
  exact ⟨by decide, h.1, h.2.1, h.2.2.1⟩

/-! ### Claim C10 -/

/-- C10: when a container is selected, `measurePageDimensions` resets its
scroll offset to 0 as its very first mutation; no step and no part of
`restoreExpandedContainers` records or restores the original offset, so
after the restore the container sits at scroll offset 0, while its mutated
inline overflow/height/max-height (and bottom, and — when it was
repositioned — position) are back to their pre-measurement values and the
markers are gone. -/
theorem scroll_top_not_restored_c10 (d : Doc) (hwf : DocWF d)
    (hclean : CleanDoc d) {c : Elem} (hc : d.selectedContainer = some c) :
    ∃ e', e' ∈ (measurePageDimensions d).2.els ∧ e'.eid = c.eid ∧
      e'.scrollTop = 0 ∧
      ∃ r, r ∈ (restoreExpandedContainers (measurePageDimensions d).2).els ∧
        r.eid = c.eid ∧ r.scrollTop = 0 ∧
        r.style.overflow = c.style.overflow ∧
        r.style.height = c.style.height ∧
        r.style.maxHeight = c.style.maxHeight ∧
        r.style.bottom = c.style.bottom ∧
        (e'.repositionedMark = true → r.style.position = c.style.position) ∧
        r.expandedMark = false ∧ r.repositionedMark = false := by
  have hmem := selectedContainer_mem hc
  have hs := measurePageDimensions_snd d
  set F := (measureSteps d).filter (fun st => st.target == c.eid) with hF
  have hst : (elemApply c F).scrollTop = 0 := by
    rw [elemApply_scrollTop]
    have hany : F.any MStep.isScrollReset = true := by
      rw [hF, measureSteps_filter hwf hc hmem, if_pos rfl]
      simp [List.any_append, containerSteps_scrollReset]
    simp [hany]
  have hS : ElemSaved c (elemApply c F) := by
    have h := measure_elemSaved hwf hclean hc hmem (measureSteps d).length
    rw [List.take_length] at h
    exact h
  have hexp : (elemApply c F).expandedMark = true := by
    rw [elemApply_expandedMark, (hclean.1 c hmem).1, Bool.false_or]
    rw [hF, measureSteps_filter hwf hc hmem, if_pos rfl]
    simp [List.any_append, containerSteps_expand]
  have hcor := restoreElem_correct d.docElId d.bodyId hS
  obtain ⟨hov, hhg, hmx, hbt⟩ := hcor.1 hexp
  refine ⟨elemApply c F, ?_, elemApply_eid F c, hst,
    restoreElem d.docElId d.bodyId (elemApply c F), ?_, ?_, ?_,
    hov, hhg, hmx, hbt, fun hrm => hcor.2.1 hrm,
    (restoreElem_marks _ _ _).1, (restoreElem_marks _ _ _).2⟩
  · rw [hs, applySteps_els]
    exact List.mem_map_of_mem _ hmem
  · rw [restore_els]
    have hd1 : (measurePageDimensions d).2.docElId = d.docElId := by
      rw [hs]; exact applySteps_docElId d _
    have hd2 : (measurePageDimensions d).2.bodyId = d.bodyId := by
      rw [hs]; exact applySteps_bodyId d _
    rw [hd1, hd2, hs, applySteps_els]
    exact List.mem_map_of_mem _ (List.mem_map_of_mem _ hmem)
  · rw [restoreElem_eid, elemApply_eid]
  · rw [hcor.2.2]
    exact hst

/-- Witness for `scroll_top_not_restored_c10` on `demoPage`, whose
container `demoScroller` starts at scroll offset 500. -/
theorem scroll_top_not_restored_c10_witness :
    demoScroller.scrollTop = 500 ∧
    (∃ e', e' ∈ (measurePageDimensions demoPage).2.els ∧ e'.eid = demoScroller.eid ∧
      e'.scrollTop = 0 ∧
      ∃ r, r ∈ (restoreExpandedContainers (measurePageDimensions demoPage).2).els ∧
        r.eid = demoScroller.eid ∧ r.scrollTop = 0 ∧
        r.style.overflow = demoScroller.style.overflow ∧
        r.style.height = demoScroller.style.height ∧
        r.style.maxHeight = demoScroller.style.maxHeight ∧
        r.style.bottom = demoScroller.style.bottom ∧
        (e'.repositionedMark = true → r.style.position = demoScroller.style.position) ∧
        r.expandedMark = false ∧ r.repositionedMark = false) :=
  ⟨by decide, scroll_top_not_restored_c10 demoPage (by unfold DocWF; decide)
    (by unfold CleanDoc; decide) (by decide)⟩

/-! ### Claim C5 -/

lemma repositionSteps_fixed {e : Elem} (h : e.computed.position = "fixed") :
    repositionSteps e = [.savePosition e.eid, .setPositionPlain e.eid "absolute",
      .addRepositionedMark e.eid] := by
  unfold repositionSteps
  rw [if_pos (by rw [h]; decide)]

lemma repositionSteps_sticky {e : Elem} (h : e.computed.position = "sticky") :
    repositionSteps e = [.savePosition e.eid, .setPositionPlain e.eid "relative",
      .addRepositionedMark e.eid] := by
  unfold repositionSteps
  rw [if_neg (by rw [h]; decide), if_pos (by rw [h]; decide)]

/-- The fate of one element whose reposition block fires: only that block
touches the inline position, so the written value survives the run, the
original is on the dataset, the marker is set, and the restore puts the
original back. -/
lemma reposition_elem_aux {d : Doc} (hwf : DocWF d) (hclean : CleanDoc d)
    {c : Elem} (hc : d.selectedContainer = some c)
    {e : Elem} (he : e ∈ d.els) (v : String)
    (hrep : repositionSteps e = [.savePosition e.eid, .setPositionPlain e.eid v,
      .addRepositionedMark e.eid]) :
    ∃ e', e' ∈ (measurePageDimensions d).2.els ∧ e'.eid = e.eid ∧
      e'.style.position = v ∧ e'.repositionedMark = true ∧
      e'.ds.oldPosition = some e.style.position ∧
      ∃ r, r ∈ (restoreExpandedContainers (measurePageDimensions d).2).els ∧
        r.eid = e.eid ∧ r.style.position = e.style.position ∧
        r.repositionedMark = false := by
  have hs := measurePageDimensions_snd d
  set F := (measureSteps d).filter (fun st => st.target == e.eid) with hF
  have hsplit : elemApply e F =
      elemApply (elemApply (elemApply (elemApply
        (elemApply e (if c.eid = e.eid then containerSteps c else []))
        (if e ∈ d.ancestorChain c then ancestorSteps e else []))
        (repositionSteps e))
        (if d.body = some e then bodySteps d c else []))
        (if d.docEl = some e then docElSteps d else []) := by
    rw [hF, measureSteps_filter hwf hc he, elemApply_append, elemApply_append,
      elemApply_append, elemApply_append]
  set e12 := elemApply (elemApply e (if c.eid = e.eid then containerSteps c else []))
    (if e ∈ d.ancestorChain c then ancestorSteps e else []) with he12
  have hpos12 : e12.style.position = e.style.position := by
    have f2 := elemApply_style_frame
      (if e ∈ d.ancestorChain c then ancestorSteps e else [])
      (elemApply e (if c.eid = e.eid then containerSteps c else [])) SProp.pos
      (ite_any_false (ancestorSteps_writes_pos e))
    have f1 := elemApply_style_frame
      (if c.eid = e.eid then containerSteps c else []) e SProp.pos
      (ite_any_false (containerSteps_writes_pos c))
    exact f2.trans f1
  set e3 := elemApply e12 (repositionSteps e) with he3
  have h3pos : e3.style.position = v := by
    rw [he3, hrep]
    rfl
  have h3ds : e3.ds.oldPosition = some e.style.position := by
    rw [he3, hrep]
    show some e12.style.position = some e.style.position
    rw [hpos12]
  have h3mark : e3.repositionedMark = true := by
    rw [he3, hrep]
    rfl
  have hEq : elemApply e F = elemApply (elemApply e3
      (if d.body = some e then bodySteps d c else []))
      (if d.docEl = some e then docElSteps d else []) := hsplit
  have h5pos : (elemApply e F).style.position = v := by
    have f5 := elemApply_style_frame (if d.docEl = some e then docElSteps d else [])
      (elemApply e3 (if d.body = some e then bodySteps d c else [])) SProp.pos
      (ite_any_false (docElSteps_writes_ne d SProp.pos (by decide)))
    have f4 := elemApply_style_frame (if d.body = some e then bodySteps d c else [])
      e3 SProp.pos (ite_any_false (bodySteps_writes_ne d c SProp.pos (by decide)))
    rw [hEq]
    exact (f5.trans f4).trans h3pos
  have h5ds : (elemApply e F).ds.oldPosition = some e.style.position := by
    have f5 := elemApply_ds_frame (if d.docEl = some e then docElSteps d else [])
      (elemApply e3 (if d.body = some e then bodySteps d c else [])) SProp.pos
      (ite_any_false (docElSteps_saves_pos d))
    have f4 := elemApply_ds_frame (if d.body = some e then bodySteps d c else [])
      e3 SProp.pos (ite_any_false (bodySteps_saves_pos d c))
    rw [hEq]
    exact (f5.trans f4).trans h3ds
  have h5mark : (elemApply e F).repositionedMark = true := by
    rw [hEq, elemApply_repositionedMark, elemApply_repositionedMark, h3mark]
    rfl
  have hS : ElemSaved e (elemApply e F) := by
    have h := measure_elemSaved hwf hclean hc he (measureSteps d).length
    rw [List.take_length] at h
    exact h
  refine ⟨elemApply e F, ?_, elemApply_eid F e, h5pos, h5mark, h5ds,
    restoreElem d.docElId d.bodyId (elemApply e F), ?_, ?_, ?_,
    (restoreElem_marks _ _ _).2⟩
  · rw [hs, applySteps_els]
    exact List.mem_map_of_mem _ he
  · rw [restore_els]
    have hd1 : (measurePageDimensions d).2.docElId = d.docElId := by
      rw [hs]; exact applySteps_docElId d _
    have hd2 : (measurePageDimensions d).2.bodyId = d.bodyId := by
      rw [hs]; exact applySteps_bodyId d _
    rw [hd1, hd2, hs, applySteps_els]
    exact List.mem_map_of_mem _ (List.mem_map_of_mem _ he)
  · rw [restoreElem_eid, elemApply_eid]
  · exact (restoreElem_correct _ _ hS).2.1 h5mark

/-- C5: when a container is expanded, every element on the page whose
computed position is `fixed` ends the run with inline position `absolute`
(and every `sticky` element with `relative`), carrying the repositioning
marker and its original inline position on the dataset, and
`restoreExpandedContainers` puts the original inline position back and
removes the marker. -/
theorem reposition_global_c5 (d : Doc) (hwf : DocWF d) (hclean : CleanDoc d)
    {c : Elem} (hc : d.selectedContainer = some c)
    {e : Elem} (he : e ∈ d.els) :
    (e.computed.position = "fixed" →
      ∃ e', e' ∈ (measurePageDimensions d).2.els ∧ e'.eid = e.eid ∧
        e'.style.position = "absolute" ∧ e'.repositionedMark = true ∧
        e'.ds.oldPosition = some e.style.position ∧
        ∃ r, r ∈ (restoreExpandedContainers (measurePageDimensions d).2).els ∧
          r.eid = e.eid ∧ r.style.position = e.style.position ∧
          r.repositionedMark = false) ∧
    (e.computed.position = "sticky" →
      ∃ e', e' ∈ (measurePageDimensions d).2.els ∧ e'.eid = e.eid ∧
        e'.style.position = "relative" ∧ e'.repositionedMark = true ∧
        e'.ds.oldPosition = some e.style.position ∧
        ∃ r, r ∈ (restoreExpandedContainers (measurePageDimensions d).2).els ∧
          r.eid = e.eid ∧ r.style.position = e.style.position ∧
          r.repositionedMark = false) := by
  constructor
  · intro hfix
    exact reposition_elem_aux hwf hclean hc he "absolute" (repositionSteps_fixed hfix)
  · intro hstk
    exact reposition_elem_aux hwf hclean hc he "relative" (repositionSteps_sticky hstk)

/-- Witness for `reposition_global_c5`: `demoFixed` sits outside the
expanded subtree of `demoPage` and is still converted. -/
theorem reposition_global_c5_witness :
    ∃ e', e' ∈ (measurePageDimensions demoPage).2.els ∧ e'.eid = demoFixed.eid ∧
      e'.style.position = "absolute" ∧ e'.repositionedMark = true ∧
      e'.ds.oldPosition = some demoFixed.style.position ∧
      ∃ r, r ∈ (restoreExpandedContainers (measurePageDimensions demoPage).2).els ∧
        r.eid = demoFixed.eid ∧ r.style.position = demoFixed.style.position ∧
        r.repositionedMark = false :=
  (@reposition_global_c5 demoPage (by unfold DocWF; decide) (by unfold CleanDoc; decide)
    demoScroller (by decide) demoFixed (by decide)).1 (by decide)

/-! ### Claim C6 -/

/-- The effect of a treated ancestor's block on an element: overflow,
height and max-height are forced unconstrained; `bottom` is cleared only
when the ancestor's computed position is `fixed` or `absolute`. -/
lemma ancestorSteps_effect (a e : Elem)
    (hhid : (a.computed.overflow == "hidden" || a.computed.overflowY == "hidden") = true) :
    (elemApply e (ancestorSteps a)).style.overflow = "visible" ∧
    (elemApply e (ancestorSteps a)).style.height = "auto" ∧
    (elemApply e (ancestorSteps a)).style.maxHeight = "none" ∧
    (elemApply e (ancestorSteps a)).expandedMark = true ∧
    (elemApply e (ancestorSteps a)).style.bottom =
      (if (a.computed.position == "fixed" || a.computed.position == "absolute") = true
       then "auto" else e.style.bottom) := by
  unfold ancestorSteps
  rw [if_pos hhid]
  by_cases hp : (a.computed.position == "fixed" || a.computed.position == "absolute") = true
  · rw [if_pos hp, if_pos hp]
    exact ⟨rfl, rfl, rfl, rfl, rfl⟩
  · rw [if_neg hp, if_neg hp]
    exact ⟨rfl, rfl, rfl, rfl, rfl⟩

/-- C6 (amended): walking the selected container's ancestor chain, the
unconstrained treatment is applied to an ancestor exactly when its
computed overflow *shorthand* is `hidden` or its computed `overflow-y` is
`hidden` — NOT "hidden on either axis" — and the `bottom` offset is
cleared only when that ancestor's computed position is `fixed` or
`absolute`, not unconditionally; an untreated non-body ancestor keeps its
inline overflow/height/max-height/bottom and gains no expansion marker. -/
theorem ancestor_unconstrain_c6 (d : Doc) (hwf : DocWF d) (hclean : CleanDoc d)
    {c : Elem} (hc : d.selectedContainer = some c)
    {a : Elem} (ha : a ∈ d.ancestorChain c) :
    ∃ a', a' ∈ (measurePageDimensions d).2.els ∧ a'.eid = a.eid ∧
      ((a.computed.overflow == "hidden" || a.computed.overflowY == "hidden") = true →
        a'.style.overflow = "visible" ∧ a'.style.height = "auto" ∧
        a'.style.maxHeight = "none" ∧ a'.expandedMark = true ∧
        a'.style.bottom =
          (if (a.computed.position == "fixed" || a.computed.position == "absolute") = true
           then "auto" else a.style.bottom)) ∧
      ((a.computed.overflow == "hidden" || a.computed.overflowY == "hidden") = false →
        d.body ≠ some a →
        a'.style.overflow = a.style.overflow ∧ a'.style.height = a.style.height ∧
        a'.style.maxHeight = a.style.maxHeight ∧ a'.style.bottom = a.style.bottom ∧
        a'.expandedMark = false) := by
  have hmem : a ∈ d.els := ancestorChain_subset a ha
  have hane : c.eid ≠ a.eid := Ne.symm (chain_ne_container hwf hc ha)
  have hs := measurePageDimensions_snd d
  set F := (measureSteps d).filter (fun st => st.target == a.eid) with hF
  have hsplit : elemApply a F =
      elemApply (elemApply (elemApply (elemApply a (ancestorSteps a))
        (repositionSteps a))
        (if d.body = some a then bodySteps d c else []))
        (if d.docEl = some a then docElSteps d else []) := by
    rw [hF, measureSteps_filter hwf hc hmem, if_neg hane, if_pos ha,
      List.nil_append, elemApply_append, elemApply_append, elemApply_append]
  refine ⟨elemApply a F, ?_, elemApply_eid F a, ?_, ?_⟩
  · rw [hs, applySteps_els]
    exact List.mem_map_of_mem _ hmem
  · -- the treated case
    intro hhid
    obtain ⟨h1, h2, h3, h4, h5⟩ := ancestorSteps_effect a a hhid
    have fr : ∀ k : SProp, k ≠ SProp.pos → k ≠ SProp.mnh →
        styleProp (elemApply a F) k = styleProp (elemApply a (ancestorSteps a)) k := by
      intro k hkp hkm
      rw [hsplit]
      have f5 := elemApply_style_frame (if d.docEl = some a then docElSteps d else [])
        (elemApply (elemApply (elemApply a (ancestorSteps a)) (repositionSteps a))
          (if d.body = some a then bodySteps d c else [])) k
        (ite_any_false (docElSteps_writes_ne d k hkm))
      have f4 := elemApply_style_frame (if d.body = some a then bodySteps d c else [])
        (elemApply (elemApply a (ancestorSteps a)) (repositionSteps a)) k
        (ite_any_false (bodySteps_writes_ne d c k hkm))
      have f3 := elemApply_style_frame (repositionSteps a)
        (elemApply a (ancestorSteps a)) k (repositionSteps_writes_ne a k hkp)
      exact (f5.trans f4).trans f3
    have hmark : (elemApply a F).expandedMark = true := by
      rw [hsplit, elemApply_expandedMark, elemApply_expandedMark,
        elemApply_expandedMark, h4]
      rfl
    exact ⟨(fr SProp.ovf (by decide) (by decide)).trans h1,
      (fr SProp.hgt (by decide) (by decide)).trans h2,
      (fr SProp.mxh (by decide) (by decide)).trans h3,
      hmark,
      (fr SProp.btm (by decide) (by decide)).trans h5⟩
  · -- the untreated case
    intro hhid hbody
    have hAs : ancestorSteps a = [] := by
      unfold ancestorSteps
      rw [if_neg (by rw [hhid]; decide)]
    have hB4 : (if d.body = some a then bodySteps d c else []) = [] := if_neg hbody
    have hsplit' : elemApply a F =
        elemApply (elemApply a (repositionSteps a))
          (if d.docEl = some a then docElSteps d else []) := by
      rw [hsplit, hAs, hB4, elemApply_nil, elemApply_nil]
    have fr : ∀ k : SProp, k ≠ SProp.pos → k ≠ SProp.mnh →
        styleProp (elemApply a F) k = styleProp a k := by
      intro k hkp hkm
      rw [hsplit']
      have f5 := elemApply_style_frame (if d.docEl = some a then docElSteps d else [])
        (elemApply a (repositionSteps a)) k
        (ite_any_false (docElSteps_writes_ne d k hkm))
      have f3 := elemApply_style_frame (repositionSteps a) a k
        (repositionSteps_writes_ne a k hkp)
      exact f5.trans f3
    have hmark : (elemApply a F).expandedMark = false := by
      rw [hsplit', elemApply_expandedMark, elemApply_expandedMark,
        (hclean.1 a hmem).1, repositionSteps_expand,
        ite_any_false (docElSteps_expand d)]
      rfl
    exact ⟨fr SProp.ovf (by decide) (by decide), fr SProp.hgt (by decide) (by decide),
      fr SProp.mxh (by decide) (by decide), fr SProp.btm (by decide) (by decide),
      hmark⟩

def demoP3Root : Elem :=
  { eid := 0, parent := none, scrollHeight := 600, clientHeight := 600
  , scrollWidth := 800
  , computed := { overflowX := "visible", overflowY := "visible", position := "static" } }

def demoP3Body : Elem :=
  { eid := 1, parent := some 0, scrollHeight := 600, clientHeight := 600
  , scrollWidth := 800
  , computed := { overflowX := "visible", overflowY := "visible", position := "static" } }

/-- An ancestor with hidden overflow on both axes, positioned `relative`,
pinned by an inline `bottom` offset. -/
def demoP3Y : Elem :=
  { eid := 2, parent := some 1, scrollHeight := 600, clientHeight := 600
  , scrollWidth := 800
  , computed := { overflowX := "hidden", overflowY := "hidden", position := "relative" }
  , style := { bottom := "10px" } }

/-- An ancestor whose overflow is hidden on the x axis only. -/
def demoP3X : Elem :=
  { eid := 3, parent := some 2, scrollHeight := 600, clientHeight := 600
  , scrollWidth := 800
  , computed := { overflowX := "hidden", overflowY := "visible", position := "static" }
  , style := { height := "50px" } }

def demoP3Scroller : Elem :=
  { eid := 4, parent := some 3, scrollHeight := 3000, clientHeight := 300
  , scrollWidth := 800
  , computed := { overflowX := "auto", overflowY := "auto", position := "static" }
  , scrollTop := 40
  , style := { overflow := "auto" } }

def demoPage3 : Doc :=
  { els := [demoP3Root, demoP3Body, demoP3Y, demoP3X, demoP3Scroller]
  , docElId := 0, bodyId := some 1
  , postDocScrollHeight := 3000, postBodyScrollHeight := 3000
  , postRectBottomCeil := 3000
  , postDocScrollWidth := 800, postBodyScrollWidth := 800 }

/-- C6 is refuted on two points by `demoPage3`.  The ancestor with id 3
has computed overflow hidden on the x axis — "hidden on either axis" in
the claim's words — yet receives no treatment: its inline height stays
`50px`, its overflow is untouched and it gains no expansion marker
(src/lib.js line 83 tests the shorthand and `overflow-y` only).  The
ancestor with id 2 is treated, but its `bottom` offset `10px` is NOT
cleared, because line 93 clears `bottom` only for computed position
`fixed` or `absolute` and this ancestor is `relative`. -/
theorem ancestor_unconstrain_counterexample_c6 :
    (demoPage3.ancestorChain demoP3Scroller).map Elem.eid = [3, 2, 1] ∧
    demoP3X.computed.overflowX = "hidden" ∧
    ((measurePageDimensions demoPage3).2.find? 3).map
      (fun e => (e.expandedMark, e.style.height, e.style.overflow))
      = some (false, "50px", "") ∧
    demoP3Y.style.bottom = "10px" ∧
    ((measurePageDimensions demoPage3).2.find? 2).map
      (fun e => (e.expandedMark, e.style.bottom)) = some (true, "10px") := by
  exact ⟨by decide, by decide, by decide, by decide, by decide⟩

/-- Witness for `ancestor_unconstrain_c6` at the treated ancestor
`demoP3Y` of `demoPage3`. -/
theorem ancestor_unconstrain_c6_witness :
    ∃ a', a' ∈ (measurePageDimensions demoPage3).2.els ∧ a'.eid = demoP3Y.eid ∧
      ((demoP3Y.computed.overflow == "hidden" ||
          demoP3Y.computed.overflowY == "hidden") = true →
        a'.style.overflow = "visible" ∧ a'.style.height = "auto" ∧
        a'.style.maxHeight = "none" ∧ a'.expandedMark = true ∧
        a'.style.bottom =
          (if (demoP3Y.computed.position == "fixed" ||
                demoP3Y.computed.position == "absolute") = true
           then "auto" else demoP3Y.style.bottom)) ∧
      ((demoP3Y.computed.overflow == "hidden" ||
          demoP3Y.computed.overflowY == "hidden") = false →
        demoPage3.body ≠ some demoP3Y →
        a'.style.overflow = demoP3Y.style.overflow ∧
        a'.style.height = demoP3Y.style.height ∧
        a'.style.maxHeight = demoP3Y.style.maxHeight ∧
        a'.style.bottom = demoP3Y.style.bottom ∧
        a'.expandedMark = false) :=
  @ancestor_unconstrain_c6 demoPage3 (by unfold DocWF; decide)
    (by unfold CleanDoc; decide) demoP3Scroller (by decide) demoP3Y (by decide)

/-! ### Claim C9: the in-page clipboard scripts
(src/unnamed/part_001 lines 599-766) -/

/-- The distinguishable failure classes of a clipboard write. -/
inductive ClipErr
  | notFocused
  | previewMissing
  | noData
  | didNotComplete
  deriving DecidableEq, Repr

/-- The page state the injected clipboard scripts see and touch. -/
structure PageState where
  hasFocus : Bool
  previewPresent : Bool
  previewCaptureId : String := ""
  previewBase64 : Option String := none
  clipboard : Option String := none
  deriving DecidableEq, Repr

/-- `isStaleCapture()` of the injected function, src/unnamed/part_001
lines 691-702: with no expected id nothing is stale; with no preview
nothing is stale; otherwise stale iff the preview's capture id differs. -/
def isStaleClip (expected : Option Nat) (p : PageState) : Bool :=
  match expected with
  | none => false
  | some cid => p.previewPresent && !(p.previewCaptureId == toString cid)

/-- The injected function of `clipboardWriteViaScript`, lines 687-722:
stale checks around the focus test, the fetch/blob step and the actual
write; `Except.ok true` is the `{stale: true}` return, `Except.ok false`
the successful write.  `writeOk` stands for the clipboard API call
resolving. -/
def clipScript (expected : Option Nat) (b64 : String) (writeOk : Bool)
    (p : PageState) : PageState × Except ClipErr Bool :=
  if isStaleClip expected p then (p, Except.ok true)
  else if !p.hasFocus then (p, Except.error ClipErr.notFocused)
  else if isStaleClip expected p then (p, Except.ok true)
  else if !writeOk then (p, Except.error ClipErr.didNotComplete)
  else
    if isStaleClip expected { p with clipboard := some b64 } then
      ({ p with clipboard := some b64 }, Except.ok true)
    else ({ p with clipboard := some b64 }, Except.ok false)

/-- The injected function of `clipboardWriteFromPreviewViaScript`, lines
739-760: re-deliver the base64 payload cached on the preview overlay —
no capture is re-run. -/
def clipRetryScript (writeOk : Bool) (p : PageState) :
    PageState × Except ClipErr Unit :=
  if !p.previewPresent then (p, Except.error ClipErr.previewMissing)
  else
    match p.previewBase64 with
    | none => (p, Except.error ClipErr.noData)
    | some b64 =>
      if b64 == "" then (p, Except.error ClipErr.noData)
      else if !p.hasFocus then (p, Except.error ClipErr.notFocused)
      else if !writeOk then (p, Except.error ClipErr.didNotComplete)
      else ({ p with clipboard := some b64 }, Except.ok ())

/-- The host calls of `retryClipboardFromPreview` (lines 629-670) before
its outcome handling: a badge update and one script injection — no
remote-debug attach, no tab capture. -/
def retryClipboardCalls : List HostCall :=
  [HostCall.badge "...", HostCall.executeScript]

/-- The four exits of the injected clipboard write. -/
lemma clipScript_cases (expected : Option Nat) (b64 : String) (writeOk : Bool)
    (p : PageState) :
    (isStaleClip expected p = true ∧
      clipScript expected b64 writeOk p = (p, Except.ok true)) ∨
    (isStaleClip expected p = false ∧ p.hasFocus = false ∧
      clipScript expected b64 writeOk p = (p, Except.error ClipErr.notFocused)) ∨
    (isStaleClip expected p = false ∧ p.hasFocus = true ∧ writeOk = false ∧
      clipScript expected b64 writeOk p = (p, Except.error ClipErr.didNotComplete)) ∨
    (isStaleClip expected p = false ∧ p.hasFocus = true ∧ writeOk = true ∧
      clipScript expected b64 writeOk p =
        ({ p with clipboard := some b64 }, Except.ok false)) := by
  unfold clipScript
  split_ifs with h1 h2 h3 h4
  · exact Or.inl ⟨h1, rfl⟩
  · exact Or.inr (Or.inl ⟨by simpa using h1, by simpa using h2, rfl⟩)
  · exact Or.inr (Or.inr (Or.inl ⟨by simpa using h1, by simpa using h2,
      by simpa using h3, rfl⟩))
  · have h4' : isStaleClip expected p = true := h4
    exact absurd h4' (by simpa using h1)
  · exact Or.inr (Or.inr (Or.inr ⟨by simpa using h1, by simpa using h2,
      by simpa using h3, rfl⟩))

/-- C9: the injected clipboard write succeeds only while the destination
document holds focus (and success means the bytes are on the clipboard);
an unfocused non-stale attempt fails with the distinguishable
focus-loss error and changes nothing — in particular the script never
changes the focus state; the preview-cache retry delivers exactly the
cached bytes when the preview and focus are there, fails with the same
distinguishable focus error when focus is gone, and the retry path makes
no remote-debug or tab-capture call (no capture is re-run). -/
theorem clipboard_focus_retry_c9 (expected : Option Nat) (b64 : String)
    (writeOk : Bool) (p : PageState) :
    ((clipScript expected b64 writeOk p).2 = Except.ok false →
      p.hasFocus = true ∧
      (clipScript expected b64 writeOk p).1.clipboard = some b64) ∧
    (p.hasFocus = false → isStaleClip expected p = false →
      (clipScript expected b64 writeOk p).2 = Except.error ClipErr.notFocused ∧
      (clipScript expected b64 writeOk p).1 = p) ∧
    ((clipScript expected b64 writeOk p).1.hasFocus = p.hasFocus ∧
     (clipScript expected b64 writeOk p).1.previewPresent = p.previewPresent ∧
     (clipScript expected b64 writeOk p).1.previewBase64 = p.previewBase64) ∧
    (p.previewPresent = true → p.previewBase64 = some b64 → (b64 == "") = false →
      p.hasFocus = true → writeOk = true →
      (clipRetryScript writeOk p).2 = Except.ok () ∧
      (clipRetryScript writeOk p).1.clipboard = some b64) ∧
    (p.hasFocus = false → p.previewPresent = true → p.previewBase64 = some b64 →
      (b64 == "") = false →
      (clipRetryScript writeOk p).2 = Except.error ClipErr.notFocused) ∧
    (HostCall.captureVisibleTab ∉ retryClipboardCalls ∧
     HostCall.debuggerAttach ∉ retryClipboardCalls) := by
  refine ⟨?_, ?_, ?_, ?_, ?_, by decide, by decide⟩
  · intro hok
    rcases clipScript_cases expected b64 writeOk p with
        ⟨h1, heq⟩ | ⟨h1, h2, heq⟩ | ⟨h1, h2, h3, heq⟩ | ⟨h1, h2, h3, heq⟩ <;>
      rw [heq] at hok
    · exact Bool.noConfusion (Except.ok.inj hok)
    · exact Except.noConfusion hok
    · exact Except.noConfusion hok
    · exact ⟨h2, by rw [heq]⟩
  · intro hf hst
    rcases clipScript_cases expected b64 writeOk p with
        ⟨h1, heq⟩ | ⟨h1, h2, heq⟩ | ⟨h1, h2, h3, heq⟩ | ⟨h1, h2, h3, heq⟩
    · exact absurd h1 (by rw [hst]; decide)
    · exact ⟨by rw [heq], by rw [heq]⟩
    · exact absurd h2 (by rw [hf]; decide)
    · exact absurd h2 (by rw [hf]; decide)
  · rcases clipScript_cases expected b64 writeOk p with
        ⟨h1, heq⟩ | ⟨h1, h2, heq⟩ | ⟨h1, h2, h3, heq⟩ | ⟨h1, h2, h3, heq⟩ <;>
      rw [heq] <;> exact ⟨rfl, rfl, rfl⟩
  · intro hp hb hne hf hw
    unfold clipRetryScript
    rw [hp, hb, hf, hw]
    simp [hne]
  · intro hf hp hb hne
    unfold clipRetryScript
    rw [hp, hb, hf]
    simp [hne]

/-- A focused page carrying a current preview with cached bytes. -/
def pageFocused : PageState :=
  { hasFocus := true, previewPresent := true, previewCaptureId := "2"
  , previewBase64 := some "iVBOR", clipboard := none }

/-- Witness for `clipboard_focus_retry_c9` on a focused page with a
matching preview: the write lands and the retry re-delivers the cached
bytes. -/
theorem clipboard_focus_retry_c9_witness :
    (clipScript (some 2) "iVBOR" true pageFocused).2 = Except.ok false ∧
    (clipScript (some 2) "iVBOR" true pageFocused).1.clipboard = some "iVBOR" ∧
    (clipRetryScript true pageFocused).2 = Except.ok () ∧
    (clipRetryScript true pageFocused).1.clipboard = some "iVBOR" := by
  have h := clipboard_focus_retry_c9 (some 2) "iVBOR" true pageFocused
  have hr := h.2.2.2.1 rfl rfl rfl rfl rfl
  exact ⟨rfl, (h.1 rfl).2, hr.1, hr.2⟩

/-! ### Claim C2: the capture-generation tracker and the orchestrator's
asynchronous continuations (src/unnamed/part_001 lines 188-334, 599-735) -/

/-- Observable events of a capture run, in emission order. -/
inductive Ev
  | started (g : Nat)
  | badge (g : Nat) (txt : String)
  | label (g : Nat)
  | clipWrite (g : Nat)
  deriving DecidableEq, Repr

/-- The generation a UI event (badge or preview-label update) is
attributable to; clipboard writes and starts carry none here. -/
def Ev.uiGen : Ev → Option Nat
  | .badge g _ => some g
  | .label g => some g
  | _ => none

/-- The state shared by all captures of one tab. -/
structure Shared where
  seq : Nat := 0
  active : Option Nat := none
  preview : Option Nat := none
  clipboard : Option Nat := none
  trace : List Ev := []
  deriving DecidableEq, Repr

/-- Where one capture's control flow stands, one phase per atomic
synchronous block between awaits. -/
inductive CPhase
  | notStarted
  | clearing
  | capturing
  | previewing
  | clipScripted
  | clipReturned
  | finished
  deriving DecidableEq, Repr

/-- The outcome the clipboard script reported to the background. -/
inductive ClipRes
  | pending
  | stale
  | okRes
  | errRes
  deriving DecidableEq, Repr

structure Th where
  phase : CPhase := CPhase.notStarted
  cid : Nat := 0
  writeOk : Bool := true
  res : ClipRes := ClipRes.pending
  deriving DecidableEq, Repr

/-- `isCurrentCapture`, lines 197-199. -/
def isCurrent (sh : Shared) (g : Nat) : Bool := sh.active == some g

/-- `finishCaptureIfCurrent`, lines 201-205. -/
def finishIfCurrent (sh : Shared) (g : Nat) : Shared :=
  if sh.active == some g then { sh with active := none } else sh

def emit (sh : Shared) (e : Ev) : Shared := { sh with trace := sh.trace ++ [e] }

/-- One atomic block of `captureScreenshot` / `copyToClipboard` for the
capture `th`, against the shared tab state:
`notStarted` is `startCapture` (lines 191-195) plus the launch of
`clearCaptureOverlays`; `clearing` is the overlay-clearing script (which
removes any preview) followed by the currency re-check and the progress
badge (216-222); `capturing` is the capture resolving, the re-check and
`showFlashAndPreview` stamping the preview with the capture id (224-254);
`previewing` is the re-check after the preview plus `copyToClipboard`'s
synchronous pre-check (255-258, 605-611); `clipScripted` is the injected
page function (691-722), whose `isStaleCapture` treats a missing preview
as NOT stale; `clipReturned` is the post-check and the then/catch
continuation (259-297). -/
def stepThread (sh : Shared) (th : Th) : Shared × Th :=
  match th.phase with
  | CPhase.notStarted =>
    ({ sh with seq := sh.seq + 1, active := some (sh.seq + 1)
             , trace := sh.trace ++ [Ev.started (sh.seq + 1)] },
     { th with phase := CPhase.clearing, cid := sh.seq + 1 })
  | CPhase.clearing =>
    if isCurrent { sh with preview := none } th.cid then
      (emit { sh with preview := none } (Ev.badge th.cid "..."),
       { th with phase := CPhase.capturing })
    else ({ sh with preview := none }, { th with phase := CPhase.finished })
  | CPhase.capturing =>
    if isCurrent sh th.cid then
      ({ sh with preview := some th.cid }, { th with phase := CPhase.previewing })
    else (sh, { th with phase := CPhase.finished })
  | CPhase.previewing =>
    if isCurrent sh th.cid then
      (sh, { th with phase := CPhase.clipScripted })
    else (sh, { th with phase := CPhase.finished })
  | CPhase.clipScripted =>
    if (match sh.preview with
        | none => false
        | some pid => !(pid == th.cid)) then
      (sh, { th with phase := CPhase.clipReturned, res := ClipRes.stale })
    else if th.writeOk then
      ({ sh with clipboard := some th.cid
               , trace := sh.trace ++ [Ev.clipWrite th.cid] },
       { th with phase := CPhase.clipReturned, res := ClipRes.okRes })
    else (sh, { th with phase := CPhase.clipReturned, res := ClipRes.errRes })
  | CPhase.clipReturned =>
    match th.res with
    | ClipRes.stale =>
      (finishIfCurrent sh th.cid, { th with phase := CPhase.finished })
    | ClipRes.okRes =>
      if isCurrent sh th.cid then
        (finishIfCurrent
          (emit (emit sh (Ev.badge th.cid "✓")) (Ev.label th.cid)) th.cid,
         { th with phase := CPhase.finished })
      else (sh, { th with phase := CPhase.finished })
    | ClipRes.errRes =>
      if isCurrent sh th.cid then
        (finishIfCurrent (emit sh (Ev.badge th.cid "✗")) th.cid,
         { th with phase := CPhase.finished })
      else (sh, { th with phase := CPhase.finished })
    | ClipRes.pending => (sh, { th with phase := CPhase.finished })
  | CPhase.finished => (sh, th)

/-- Two captures on one tab. -/
structure Sys where
  sh : Shared
  a : Th
  b : Th
  deriving DecidableEq, Repr

/-- Advance the picked capture by one atomic block. -/
def sysStep (s : Sys) (pick : Bool) : Sys :=
  if pick then
    { s with sh := (stepThread s.sh s.b).1, b := (stepThread s.sh s.b).2 }
  else
    { s with sh := (stepThread s.sh s.a).1, a := (stepThread s.sh s.a).2 }

def captureRun (s : Sys) (sched : List Bool) : Sys := sched.foldl sysStep s

def initSys (okA okB : Bool) : Sys :=
  { sh := {}, a := { writeOk := okA }, b := { writeOk := okB } }

/-- All badge/label events of the suffix are attributable to generation
at least `g'`. -/
def gatedAfter (g' : Nat) (t : List Ev) : Bool :=
  t.all fun e =>
    match e.uiGen with
    | some g => decide (g' ≤ g)
    | none => true

/-- After every `started g` event, every later badge/label event carries a
generation ≥ g: no UI action is attributable to an older capture once a
newer one has begun. -/
def traceGated : List Ev → Bool
  | [] => true
  | e :: t =>
    (match e with
     | Ev.started g => gatedAfter g t
     | _ => true) && traceGated t

def StartedLe (t : List Ev) (n : Nat) : Prop :=
  ∀ g, Ev.started g ∈ t → g ≤ n

lemma startedLe_append_nonstart {t : List Ev} {n : Nat} (e : Ev)
    (h : StartedLe t n) (he : ∀ g, e ≠ Ev.started g) :
    StartedLe (t ++ [e]) n := by
  intro g hg
  rcases List.mem_append.1 hg with h1 | h1
  · exact h g h1
  · rw [List.mem_singleton] at h1
    exact absurd h1.symm (he g)

lemma startedLe_append_start {t : List Ev} {n : Nat} (h : StartedLe t n) :
    StartedLe (t ++ [Ev.started (n + 1)]) (n + 1) := by
  intro g hg
  rcases List.mem_append.1 hg with h1 | h1
  · exact le_trans (h g h1) (Nat.le_succ n)
  · rw [List.mem_singleton] at h1
    injection h1 with h2
    exact le_of_eq h2

lemma gatedAfter_append (g' : Nat) (t1 t2 : List Ev) :
    gatedAfter g' (t1 ++ t2) = (gatedAfter g' t1 && gatedAfter g' t2) := by
  unfold gatedAfter
  exact List.all_append

lemma traceGated_append {t : List Ev} (e : Ev)
    (ht : traceGated t = true)
    (he : ∀ g, e.uiGen = some g → StartedLe t g) :
    traceGated (t ++ [e]) = true := by
  induction t with
  | nil =>
    cases e <;> simp [traceGated, gatedAfter, Ev.uiGen]
  | cons x t ih =>
    rw [List.cons_append]
    simp only [traceGated, Bool.and_eq_true] at ht ⊢
    refine ⟨?_, ih ht.2 (fun g hg g' hg' => he g hg g' (List.mem_cons_of_mem x hg'))⟩
    cases x with
    | started gx =>
      show gatedAfter gx (t ++ [e]) = true
      have ht1 : gatedAfter gx t = true := ht.1
      rw [gatedAfter_append, ht1, Bool.true_and]
      rcases hu : e.uiGen with _ | g
      · unfold gatedAfter
        simp [hu]
      · unfold gatedAfter
        simp only [List.all_cons, List.all_nil, Bool.and_true, hu]
        exact decide_eq_true (he g hu gx (List.mem_cons_self _ t))
    | badge g txt => rfl
    | label g => rfl
    | clipWrite g => rfl

def SharedInv (sh : Shared) : Prop :=
  traceGated sh.trace = true ∧
  StartedLe sh.trace sh.seq ∧
  ∀ g, sh.active = some g → g ≤ sh.seq ∧ StartedLe sh.trace g

lemma emit_ui_inv {sh : Shared} {g : Nat} (e : Ev) (hui : e.uiGen = some g)
    (hac : sh.active = some g) (h : SharedInv sh) : SharedInv (emit sh e) := by
  obtain ⟨h1, h2, h3⟩ := h
  have hns : ∀ g', e ≠ Ev.started g' := by
    intro g' hcon
    exact Option.noConfusion (hcon ▸ hui)
  refine ⟨traceGated_append e h1 ?_, startedLe_append_nonstart e h2 hns, ?_⟩
  · intro g' hg'
    rw [hui] at hg'
    obtain rfl := Option.some.inj hg'
    exact (h3 g hac).2
  · intro g' hg'
    exact ⟨(h3 g' hg').1, startedLe_append_nonstart e (h3 g' hg').2 hns⟩

lemma emit_clip_inv {sh : Shared} (g0 : Nat) (h : SharedInv sh) :
    SharedInv { sh with clipboard := some g0
                      , trace := sh.trace ++ [Ev.clipWrite g0] } := by
  obtain ⟨h1, h2, h3⟩ := h
  have hns : ∀ g', Ev.clipWrite g0 ≠ Ev.started g' := fun g' hcon => Ev.noConfusion hcon
  refine ⟨traceGated_append _ h1 (fun g hg => Option.noConfusion hg),
    startedLe_append_nonstart _ h2 hns, ?_⟩
  intro g' hg'
  exact ⟨(h3 g' hg').1, startedLe_append_nonstart _ (h3 g' hg').2 hns⟩

lemma finishIfCurrent_inv {sh : Shared} (g0 : Nat) (h : SharedInv sh) :
    SharedInv (finishIfCurrent sh g0) := by
  obtain ⟨h1, h2, h3⟩ := h
  unfold finishIfCurrent
  split_ifs with hc
  · exact ⟨h1, h2, fun g hg => Option.noConfusion hg⟩
  · exact ⟨h1, h2, h3⟩

lemma stepThread_inv {sh : Shared} (th : Th) (h : SharedInv sh) :
    SharedInv (stepThread sh th).1 := by
  obtain ⟨h1, h2, h3⟩ := h
  rcases hph : th.phase
  case notStarted =>
    simp only [stepThread, hph]
    refine ⟨traceGated_append _ h1 (fun g hg => Option.noConfusion hg),
      startedLe_append_start h2, ?_⟩
    intro g hg
    obtain rfl : sh.seq + 1 = g := Option.some.inj hg
    exact ⟨le_refl _, startedLe_append_start h2⟩
  case clearing =>
    simp only [stepThread, hph]
    split_ifs with hc
    · have hac : sh.active = some th.cid := eq_of_beq hc
      exact emit_ui_inv (Ev.badge th.cid "...") rfl hac ⟨h1, h2, h3⟩
    · exact ⟨h1, h2, h3⟩
  case capturing =>
    simp only [stepThread, hph]
    split_ifs with hc
    · exact ⟨h1, h2, h3⟩
    · exact ⟨h1, h2, h3⟩
  case previewing =>
    simp only [stepThread, hph]
    split_ifs with hc
    · exact ⟨h1, h2, h3⟩
    · exact ⟨h1, h2, h3⟩
  case clipScripted =>
    simp only [stepThread, hph]
    split_ifs with hc hw
    · exact ⟨h1, h2, h3⟩
    · exact emit_clip_inv th.cid ⟨h1, h2, h3⟩
    · exact ⟨h1, h2, h3⟩
  case clipReturned =>
    simp only [stepThread, hph]
    rcases hres : th.res
    case stale =>
      exact finishIfCurrent_inv th.cid ⟨h1, h2, h3⟩
    case okRes =>
      split_ifs with hc
      · have hac : sh.active = some th.cid := eq_of_beq hc
        have i1 := emit_ui_inv (Ev.badge th.cid "✓") rfl hac ⟨h1, h2, h3⟩
        have hac2 : (emit sh (Ev.badge th.cid "✓")).active = some th.cid := hac
        have i2 := emit_ui_inv (Ev.label th.cid) rfl hac2 i1
        exact finishIfCurrent_inv th.cid i2
      · exact ⟨h1, h2, h3⟩
    case errRes =>
      split_ifs with hc
      · have hac : sh.active = some th.cid := eq_of_beq hc
        have i1 := emit_ui_inv (Ev.badge th.cid "✗") rfl hac ⟨h1, h2, h3⟩
        exact finishIfCurrent_inv th.cid i1
      · exact ⟨h1, h2, h3⟩
    case pending =>
      exact ⟨h1, h2, h3⟩
  case finished =>
    simp only [stepThread, hph]
    exact ⟨h1, h2, h3⟩

lemma sysStep_inv (s : Sys) (pick : Bool) (h : SharedInv s.sh) :
    SharedInv (sysStep s pick).sh := by
  cases pick
  · exact stepThread_inv s.a h
  · exact stepThread_inv s.b h

lemma captureRun_inv (okA okB : Bool) (sched : List Bool) :
    SharedInv (captureRun (initSys okA okB) sched).sh := by
  suffices h : ∀ (l : List Bool) (s : Sys), SharedInv s.sh →
      SharedInv (captureRun s l).sh by
    exact h sched _ ⟨rfl, fun g hg => absurd hg (List.not_mem_nil _),
      fun g hg => Option.noConfusion hg⟩
  intro l
  induction l with
  | nil => intro s hs; exact hs
  | cons p t ih =>
    intro s hs
    exact ih _ (sysStep_inv s p hs)

lemma traceGated_split : ∀ (u : List Ev) {t : List Ev} (g' : Nat) (v : List Ev),
    traceGated t = true → t = u ++ Ev.started g' :: v →
    ∀ e ∈ v, ∀ g, e.uiGen = some g → g' ≤ g := by
  intro u
  induction u with
  | nil =>
    intro t g' v ht heq e he g hui
    rw [heq] at ht
    simp only [List.nil_append, traceGated, Bool.and_eq_true] at ht
    have hall := List.all_eq_true.1 ht.1 e he
    rw [hui] at hall
    exact of_decide_eq_true hall
  | cons x u ih =>
    intro t g' v ht heq e he g hui
    rw [heq, List.cons_append] at ht
    simp only [traceGated, Bool.and_eq_true] at ht
    exact ih g' v ht.2 rfl e he g hui

/-- C2 (amended): in every interleaving of two captures on one tab, every
badge update and preview-label update is emitted under the `isCurrent`
guard, so once a newer capture has begun (`started g'`) every later badge
or label event is attributable to a generation ≥ g' — an older capture
shows no success or failure indicator after a newer one starts, whether
it succeeds or fails.  The claim's blanket "no further user-visible
effect" is false for the clipboard write: the in-page staleness re-check
trusts the preview overlay's capture id and treats a missing preview as
current, so an older capture's clipboard write can land after a newer
capture has begun (see the counterexample). -/
theorem capture_concurrency_c2 (okA okB : Bool) (sched : List Bool) :
    traceGated (captureRun (initSys okA okB) sched).sh.trace = true ∧
    (∀ u v g' g txt,
      (captureRun (initSys okA okB) sched).sh.trace = u ++ Ev.started g' :: v →
      Ev.badge g txt ∈ v → g' ≤ g) ∧
    (∀ u v g' g,
      (captureRun (initSys okA okB) sched).sh.trace = u ++ Ev.started g' :: v →
      Ev.label g ∈ v → g' ≤ g) := by
  have hinv := captureRun_inv okA okB sched
  refine ⟨hinv.1, ?_, ?_⟩
  · intro u v g' g txt heq hmem
    exact traceGated_split u g' v hinv.1 heq _ hmem g rfl
  · intro u v g' g heq hmem
    exact traceGated_split u g' v hinv.1 heq _ hmem g rfl

/-- A schedule in which capture 2 begins and clears the overlays while
capture 1's clipboard script is still pending. -/
def cexSched : List Bool :=
  [false, false, false, false, true, true, false, false, true, true, true, true]

/-- C2 is refuted on the clipboard write: under `cexSched`, capture 1's
clipboard write (`Ev.clipWrite 1`) executes AFTER capture 2 has begun
(`Ev.started 2`) — the in-page `isStaleCapture` sees no preview overlay
(capture 2's overlay-clearing removed it) and reports the write as
current — so the generation-1 operation performs a user-visible effect
after a newer capture was begun.  The badge/label side of the claim holds
on the same schedule: exactly one success badge, capture 2's. -/
theorem capture_concurrency_counterexample_c2 :
    (captureRun (initSys true true) cexSched).sh.trace =
      [Ev.started 1, Ev.badge 1 "...", Ev.started 2, Ev.badge 2 "...",
       Ev.clipWrite 1, Ev.clipWrite 2, Ev.badge 2 "✓", Ev.label 2] ∧
    ((captureRun (initSys true true) cexSched).sh.trace.filter
      (fun e => e == Ev.badge 2 "✓")).length = 1 ∧
    ((captureRun (initSys true true) cexSched).sh.trace.filter
      (fun e => e == Ev.badge 1 "✓")).length = 0 := by
  exact ⟨by decide, by decide, by decide⟩

/-- Witness for `capture_concurrency_c2` on the concrete schedule: the
gating predicate holds, and instantiating the split property at the
`started 2` event bounds the late progress badge's generation. -/
theorem capture_concurrency_c2_witness :
    traceGated (captureRun (initSys true true) cexSched).sh.trace = true ∧
    (2 : Nat) ≤ 2 := by
  have h := capture_concurrency_c2 true true cexSched
  refine ⟨h.1, ?_⟩
  exact h.2.1 [Ev.started 1, Ev.badge 1 "..."]
    [Ev.badge 2 "...", Ev.clipWrite 1, Ev.clipWrite 2, Ev.badge 2 "✓", Ev.label 2]
    2 2 "..." (by decide) (by decide)

end SimpleScreenshots
